import Mathlib

/-!
Verification development for the PDF engine sources (`pdf.js`, `fonts.js`).

The JavaScript sources are shallowly embedded: each JS function used by a
property below is translated into a Lean definition that follows the source
line by line.  JS numbers are modelled as `Int`: every number appearing in the
modelled fragment is an integer-valued double (token streams, xref fields,
charstring operands), and the source's `IsInt` test `(v|0) == v` is modelled
as the 32-bit range check on that integer.  JS exceptions are modelled with
`Except`; JS object identity (for `new Name`/`new Cmd` allocations) is
modelled by stamping each allocation with a fresh counter value.
-/

namespace PdfJs

/-- The primitive object algebra of `pdf.js` (`Name` lines 61-70, `Cmd` lines
72-81, `Dict` lines 83-100, `Ref` lines 102-112, plus JS numbers, strings,
booleans, `null`, the `EOF`/`Error` sentinels and arrays).  `Name` and `Cmd`
carry an allocation stamp `id` modelling JS reference identity: every
`new Name(...)` / `new Cmd(...)` yields a fresh stamp, and two tokens are the
same JS object iff their stamps agree.  The end of a token list models the
`EOF` sentinel. -/
inductive Obj where
  | num (v : Int)
  | str (s : String)
  | name (id : Nat) (s : String)
  | cmd (id : Nat) (s : String)
  | bool (b : Bool)
  | nullv
  | errorv
  | dict (entries : List (String × Obj))
  | arr (elems : List Obj)
  | ref (num gen : Int)

/-- `IsCmd(v)` with no second argument (pdf.js line 138): `v instanceof Cmd`. -/
def isCmdObj : Obj → Bool
  | .cmd _ _ => true
  | _ => false

/-- `IsCmd(v, cmd)` (pdf.js lines 138-140): `v instanceof Cmd && v.cmd == cmd`. -/
def isCmdNamed (o : Obj) (c : String) : Bool :=
  match o with
  | .cmd _ s => s = c
  | _ => false

/-- `IsDict(v)` (pdf.js lines 142-144). -/
def isDict : Obj → Bool
  | .dict _ => true
  | _ => false

/-- `IsInt(v)` (pdf.js lines 118-120): a number with `(v|0) == v`, i.e. an
integer-valued double in the signed 32-bit range; returns its value. -/
def objAsInt : Obj → Option Int
  | .num v => if -2147483648 ≤ v ∧ v < 2147483648 then some v else none
  | _ => none

/-! ## ContentStreamInterpreter (`Interpreter`, pdf.js lines 803-847) -/

/-- One call observed on the graphics sink: the `beginDrawing`/`endDrawing`
brackets and each dispatched operator with the operand stack it received. -/
inductive GEvent where
  | beginDrawing (x y width height : Int)
  | op (cmd : String) (args : List Obj)
  | endDrawing

/-- JS `cmd[0] == "$"`; for the empty string `cmd[0]` is `undefined`,
which is not `"$"`. -/
def startsWithDollar (s : String) : Bool :=
  match s.data with
  | [] => false
  | c :: _ => c = '$'

/-- `Interpreter.error` (pdf.js lines 841-843) throws, so the message text is
recorded only for the trace.  (The source wraps the command in quotes; the
enclosing quotes are elided here.  `new Error(what)` is itself applied to the
shadowing `var Error = {}` of line 164, so the construction raises a
TypeError — either way an exception propagates out of `interpretHelper`.) -/
def unknownCmdMsg (c : String) : String := "Unknown command " ++ c

/-- Message of the arity-mismatch error path (pdf.js line 830). -/
def arityErrMsg (c : String) : String := "Invalid number of arguments " ++ c

/-- The `while (!IsEOF(obj = parser.getObj()))` loop of
`Interpreter.interpretHelper` (pdf.js lines 821-838).  The graphics sink is
abstracted by its operator table `gfx : String → Option Nat` mapping each
method name to its declared parameter count (`fn.length`); a dispatched call
is recorded as a trace event.  Non-command tokens are pushed on the operand
stack `args`; a command token looks up `gfx[cmd]`; a present, non-`$` method
of matching arity is applied and `args.length = 0` clears the stack; a
missing method, a `$`-prefixed method, or an arity mismatch reaches
`this.error`, which throws and aborts the loop. -/
def interpretLoop (gfx : String → Option Nat) :
    List Obj → List Obj → List GEvent → Except String (List GEvent)
  | [], _args, acc => .ok (acc ++ [.endDrawing])
  | t :: rest, args, acc =>
    match t with
    | .cmd _ c =>
      match gfx c with
      | some arity =>
        if startsWithDollar c then .error (unknownCmdMsg c)
        else if arity ≠ args.length then .error (arityErrMsg c)
        else interpretLoop gfx rest [] (acc ++ [.op c args])
      | none => .error (unknownCmdMsg c)
    | _ => interpretLoop gfx rest (args ++ [t]) acc

/-- `Interpreter.interpretHelper(mediaBox, parser)` (pdf.js lines 817-840):
brackets the token stream with `beginDrawing({x: mediaBox[0], y: mediaBox[1],
width: mediaBox[2]-mediaBox[0], height: mediaBox[3]-mediaBox[1]})` and
`endDrawing()`.  The parser is modelled by the list of tokens its successive
`getObj()` calls return (exactly how the source's own `MockParser` harness,
pdf.js lines 1119-1131, drives this function), ending at `EOF`. -/
def interpretHelper (gfx : String → Option Nat) (m0 m1 m2 m3 : Int)
    (toks : List Obj) : Except String (List GEvent) :=
  interpretLoop gfx toks [] [.beginDrawing m0 m1 (m2 - m0) (m3 - m1)]

/-- The operator table of the `EchoGraphics` sink (pdf.js lines 849-977):
each own method name with its declared parameter count (`fn.length`). -/
def echoMethods : List (String × Nat) :=
  [("beginDrawing", 1), ("endDrawing", 0),
   ("w", 1), ("d", 2), ("q", 0), ("Q", 0), ("cm", 6),
   ("m", 2), ("l", 2), ("c", 6), ("h", 0), ("re", 4),
   ("S", 0), ("f", 0), ("B", 0), ("b", 0),
   ("BT", 0), ("ET", 0), ("Tf", 2), ("Td", 2), ("Tj", 1),
   ("g", 1), ("RG", 3), ("rg", 3),
   ("print", 1), ("println", 1), ("printdentln", 1),
   ("indent", 0), ("dedent", 0)]

/-- Property lookup `gfx[cmd]` on an `EchoGraphics` instance.  (Properties
inherited from `Object.prototype` are not exercised by any content stream
considered here and are left out of the table.) -/
def EchoGraphics (c : String) : Option Nat :=
  echoMethods.lookup c

/-! ## Lexer (`Lexer`, pdf.js lines 176-459)

The lexer walks the stream character-wise (each character is
`String.fromCharCode` of one byte); it is modelled on the list of remaining
characters plus the allocation counter that stamps each `new Name`/`new Cmd`
object (JS reference identity). -/

/-- The `specialChars` classification table (pdf.js lines 183-200): `1` for
white space, `2` for delimiters, `0` otherwise. -/
def specialChar (c : Nat) : Nat :=
  if c = 0 ∨ c = 9 ∨ c = 10 ∨ c = 12 ∨ c = 13 ∨ c = 32 then 1
  else if c = 37 ∨ c = 40 ∨ c = 41 ∨ c = 47 ∨ c = 60 ∨ c = 62 ∨ c = 91 ∨
      c = 93 ∨ c = 123 ∨ c = 125 then 2
  else 0

/-- `ToHexDigit(ch)` (pdf.js lines 207-214).  For a digit, the JS string
subtraction `ch - "0"` numerically coerces the one-character strings and
yields the digit value.  For `a`..`f`/`A`..`F`, the source returns
`ch - "a"` — but `Number("a")` is `NaN`, so the result is `NaN` (modelled as
`none`), not the hex value 10..15.  Every other character yields `-1`.
The input is the result of `lookChar`/`getChar`; at end of data that is
`undefined`, on which `ch.toLowerCase()` raises a TypeError (modelled by the
callers as `Except.error`). -/
def toHexDigitJS (c : Char) : Option Int :=
  if '0' ≤ c ∧ c ≤ '9' then some ((c.toNat : Int) - 48)
  else
    let lc := c.toLower
    if 'a' ≤ lc ∧ lc ≤ 'f' then none
    else some (-1)

/-- `String.fromCharCode((x << 4) | x2)` (pdf.js line 347) under JS number
semantics: a `NaN` operand coerces to 0 via `ToInt32`, the bitwise or is on
32-bit integers, and `fromCharCode` applies `ToUint16`. -/
def hexEscCharCode (x x2 : Option Int) : Nat :=
  let xv : Int := match x with | none => 0 | some v => v
  let x2v : Int := match x2 with | none => 0 | some v => v
  (((xv * 16).lor x2v) % 65536).toNat

/-- Lexer log message of pdf.js line 346. -/
def illegalHexDigitMsg : String := "Illegal digit in hex char in name"

/-- Lexer log message of pdf.js line 357 (`Lexer.error` prints and
continues, so it is a non-fatal log entry). -/
def nameLengthWarnMsg : String :=
  "Warning: name token is longer than allowed by the specification"

/-- Lexer log message of pdf.js line 443. -/
def cmdTooLongMsg : String := "Command token too long"

/-- The character loop of `Lexer.getName` (pdf.js lines 334-355), returning
the accumulated characters of the name, the log entries produced, and the
unconsumed remainder of the stream.  On `#` the next character is inspected:
a non-`-1` hex value consumes it and one further character and appends the
decoded character; a `-1` value appends `#` and the inspected character
without consuming the latter (it is re-examined by the next iteration, as in
the source).  A `#` whose required character is past end of data reaches
`ToHexDigit(undefined)`, which raises a TypeError (`Except.error`). -/
def getNameCore : List Char → Except Unit (List Char × List String × List Char)
  | [] => .ok ([], [], [])
  | [c] =>
    if specialChar c.toNat ≠ 0 then .ok ([], [], [c])
    else if c = '#' then .error ()
    else .ok ([c], [], [])
  | c :: c2 :: rest2 =>
    if specialChar c.toNat ≠ 0 then .ok ([], [], c :: c2 :: rest2)
    else if c = '#' then
      if toHexDigitJS c2 = some (-1) then
        match getNameCore (c2 :: rest2) with
        | .error () => .error ()
        | .ok (cs, ws, rem) => .ok ('#' :: c2 :: cs, ws, rem)
      else
        match rest2 with
        | [] => .error ()
        | c3 :: rest3 =>
          match getNameCore rest3 with
          | .error () => .error ()
          | .ok (cs, ws, rem) =>
            .ok (Char.ofNat (hexEscCharCode (toHexDigitJS c2) (toHexDigitJS c3))
                :: cs,
              (if toHexDigitJS c3 = some (-1) then [illegalHexDigitMsg]
               else []) ++ ws,
              rem)
    else
      match getNameCore (c2 :: rest2) with
      | .error () => .error ()
      | .ok (cs, ws, rem) => .ok (c :: cs, ws, rem)

/-- Lexer state: the remaining stream characters and the allocation counter
stamping `new Name`/`new Cmd` objects. -/
structure LexState where
  chars : List Char
  alloc : Nat

/-- `Lexer.getName(ch)` (pdf.js lines 334-359), entered from `getObj` after
the dispatch character `/` was consumed (the `ch` argument is ignored by the
source): runs the character loop, logs the over-length warning for a name
longer than 128 characters, and returns `new Name(str)` — a fresh object. -/
def lexGetName (st : LexState) : Except Unit (Obj × List String × LexState) :=
  match getNameCore st.chars with
  | .error () => .error ()
  | .ok (cs, ws, rem) =>
    .ok (.name st.alloc (String.mk cs),
      ws ++ (if cs.length > 128 then [nameLengthWarnMsg] else []),
      ⟨rem, st.alloc + 1⟩)

/-- The character loop of the command branch of `Lexer.getObj`
(pdf.js lines 439-447): `len` is the current length of `str`; when it is
exactly 128 the just-consumed character is dropped, the error is logged and
the loop breaks. -/
def getCmdCore : List Char → Nat → List Char × List String × List Char
  | [], _ => ([], [], [])
  | c :: rest, len =>
    if specialChar c.toNat ≠ 0 then ([], [], c :: rest)
    else if len = 128 then ([], [cmdTooLongMsg], rest)
    else
      let r := getCmdCore rest (len + 1)
      (c :: r.1, r.2.1, r.2.2)

/-- The tail of `Lexer.getObj` (pdf.js lines 438-454): the consumed dispatch
character `c0` starts the token; the bare words `true`/`false`/`null`
become primitives (no allocation), anything else becomes `new Cmd(str)` — a
fresh object. -/
def lexGetCmdToken (c0 : Char) (st : LexState) : Obj × List String × LexState :=
  let r := getCmdCore st.chars 1
  let str := String.mk (c0 :: r.1)
  if str = "true" then (.bool true, r.2.1, ⟨r.2.2, st.alloc⟩)
  else if str = "false" then (.bool false, r.2.1, ⟨r.2.2, st.alloc⟩)
  else if str = "null" then (.nullv, r.2.1, ⟨r.2.2, st.alloc⟩)
  else (.cmd st.alloc str, r.2.1, ⟨r.2.2, st.alloc + 1⟩)

/-- The `<` dispatch case of `Lexer.getObj` (pdf.js lines 415-422), entered
with the first `<` already consumed: `ch` is re-assigned to the looked-ahead
character, so when that character is a second `<` it is consumed and
`new Cmd(ch)` is built from the single character — the token for dict-open
punctuation is `Cmd("<")`, never `Cmd("<<")`.  When the looked-ahead
character is anything else, `getHexString` reads a hex string instead (a
string token; not modelled here, `none`). -/
def lexAngleOpen (st : LexState) : Option (Obj × LexState) :=
  match st.chars with
  | c :: rest =>
    if c = '<' then some (.cmd st.alloc "<", ⟨rest, st.alloc + 1⟩) else none
  | [] => none

/-- The `>` dispatch case of `Lexer.getObj` (pdf.js lines 424-429): a second
`>` is consumed and the token is `new Cmd(ch)` with `ch` the single looked
ahead character `">"`; anything else falls through to the illegal-character
branch (lines 430-433), which logs via `Lexer.error` and returns the `Error`
sentinel without consuming the looked-ahead character. -/
def lexAngleClose (st : LexState) : Obj × LexState :=
  match st.chars with
  | c :: rest =>
    if c = '>' then (.cmd st.alloc ">", ⟨rest, st.alloc + 1⟩) else (.errorv, st)
  | [] => (.errorv, st)

/-- The `name` text of a `Name` object. -/
def objNameStr : Obj → Option String
  | .name _ s => some s
  | _ => none

/-- The `cmd` text of a `Cmd` object. -/
def objCmdStr : Obj → Option String
  | .cmd _ s => some s
  | _ => none

/-! ## CrossReferenceTable (`XRef.readXRefTable`, pdf.js lines 648-691) -/

/-- One cross-reference entry as built by `readXRefTable`: `entry.offset`,
`entry.gen`, and the `entry.uncompressed = true` / `entry.free = true` flag
set from the `n` / `f` keyword. -/
inductive XKind where
  | uncompressed : XKind
  | free : XKind
  deriving DecidableEq

/-- An entry object `{offset, gen, uncompressed/free}`. -/
structure XEntry where
  offset : Int
  gen : Int
  kind : XKind
  deriving DecidableEq

/-- The sparse JS array `this.entries`, modelled as a map from object number
to the entry stored there (`undefined` = `none`). -/
def XEntries : Type := Nat → Option XEntry

/-- `this.entries[i] = entry`. -/
def updE (ents : XEntries) (k : Nat) (e : XEntry) : XEntries :=
  fun k' => if k' = k then some e else ents k'

/-- The empty `this.entries = []` of the `XRef` constructor (pdf.js line 643). -/
def emptyEntries : XEntries := fun _ => none

/-- The type-flag keyword of an entry (pdf.js lines 669-676):
`IsCmd(obj, "n")` → uncompressed, `IsCmd(obj, "f")` → free, anything else
makes `readXRefTable` return `false`. -/
def xflag : Obj → Option XKind
  | .cmd _ s =>
    if s = "n" then some .uncompressed
    else if s = "f" then some .free
    else none
  | _ => none

/-- Control position inside `readXRefTable`: either at the top of the outer
`while (true)` loop reading a subsection header, or inside the
`for (var i = first; i < first + n; ++i)` entry loop with the current
values of `i`, `first` and the loop bound `first + n`. -/
inductive XMode where
  | outer : XMode
  | inSub (i first stop : Nat) : XMode

/-- Rank used for termination: the entry loop falls back to the outer loop
without consuming a token when `i` reaches the bound. -/
def XMode.rank : XMode → Nat
  | .outer => 0
  | .inSub _ _ _ => 1

/-- `XRef.readXRefTable(parser)` (pdf.js lines 648-691), over the token list
the parser's successive `getObj()` calls return (`EOF` = end of list).
Subsection headers are two `IsInt` tokens `first n` with
`first ≥ 0`, `n ≥ 0` and `first + n` still a 32-bit int; each entry is
`offset gen n|f`; any violation returns `false` (with `this.entries` keeping
the mutations made so far).  A stored entry never overwrites a populated
slot (`if (!this.entries[i])`), except that the legacy special case
`i == 1 && first == 1 && offset == 0 && gen == 65535 && free` renumbers the
subsection by setting `i = first = 0` and storing at index 0 (without
re-checking index 0).  The keyword `trailer` ends the table with `true`. -/
def xrefRun (toks : List Obj) (ents : XEntries) (mode : XMode) : Bool × XEntries :=
  match mode with
  | .inSub i first stop =>
    if i < stop then
      match toks with
      | o1 :: o2 :: o3 :: rest =>
        match objAsInt o1, objAsInt o2 with
        | some off, some gen =>
          match xflag o3 with
          | some k =>
            if ents i = none then
              if i = 1 ∧ first = 1 ∧ off = 0 ∧ gen = 65535 ∧ k = .free then
                xrefRun rest (updE ents 0 ⟨off, gen, k⟩) (.inSub 1 0 (stop - 1))
              else
                xrefRun rest (updE ents i ⟨off, gen, k⟩) (.inSub (i + 1) first stop)
            else xrefRun rest ents (.inSub (i + 1) first stop)
          | none => (false, ents)
        | _, _ => (false, ents)
      | _ => (false, ents)
    else xrefRun toks ents .outer
  | .outer =>
    match toks with
    | [] => (false, ents)
    | o :: rest =>
      if isCmdNamed o "trailer" then (true, ents)
      else
        match objAsInt o, rest with
        | some first, o2 :: rest2 =>
          match objAsInt o2 with
          | some n =>
            if first < 0 ∨ n < 0 ∨ 2147483648 ≤ first + n then (false, ents)
            else xrefRun rest2 ents (.inSub first.toNat first.toNat (first + n).toNat)
          | none => (false, ents)
        | _, _ => (false, ents)
  termination_by (toks.length, mode.rank)
  decreasing_by all_goals (simp [XMode.rank]; omega)

/-- `XRef.readXRefTable` entered from `readXRef` (pdf.js line 703): the outer
loop over the given token stream, mutating `this.entries`. -/
def readXRefTable (toks : List Obj) (ents : XEntries) : Bool × XEntries :=
  xrefRun toks ents .outer

/-- Token encoding of a list of subsection entries `(offset, gen, free?)`,
as the parser delivers them to `readXRefTable`: each entry contributes the
three tokens `offset gen n|f`. -/
def encodeEntryToks : List (Int × Int × Bool) → List Obj
  | [] => []
  | (o, g, f) :: rest =>
    .num o :: .num g :: .cmd 0 (if f then "f" else "n") :: encodeEntryToks rest

/-- The entry object built from an encoded `(offset, gen, free?)` triple. -/
def entryOf (t : Int × Int × Bool) : XEntry :=
  ⟨t.1, t.2.1, if t.2.2 then .free else .uncompressed⟩

/-- An encoded triple is well formed when both numbers pass `IsInt`. -/
def tripleWf (t : Int × Int × Bool) : Prop :=
  -2147483648 ≤ t.1 ∧ t.1 < 2147483648 ∧ -2147483648 ≤ t.2.1 ∧ t.2.1 < 2147483648

/-- The entry table obtained from `ents` by storing the encoded triples `ts`
at the consecutive indices `i, i+1, ...` (each at its declared position). -/
def storeRange (ents : XEntries) (i : Nat) : List (Int × Int × Bool) → XEntries
  | [] => ents
  | t :: ts => storeRange (updE ents i (entryOf t)) (i + 1) ts

/-- Token stream of a complete classic table with one subsection declared as
`first ts.length`, the encoded entries, and the closing `trailer` keyword. -/
def subsectionToks (first : Nat) (ts : List (Int × Int × Bool)) : List Obj :=
  .num (first : Int) :: .num (ts.length : Int) ::
    (encodeEntryToks ts ++ [.cmd 1 "trailer"])

/-! ## Parser (`Parser`, pdf.js lines 461-560), Linearization (lines
565-639) and the `PDFDoc.linearization` getter (lines 727-737)

The parser pulls tokens from `Lexer.getObj`; as for the interpreter and the
xref reader, it is modelled over the list of tokens the successive lexer
calls return, with `none` standing for the `EOF` sentinel returned past the
last token. -/

/-- JS exceptions raised by the parser and linearization code paths;
`overflow` is the stack overflow of unbounded recursion (modelled by fuel
exhaustion). -/
inductive JSErr where
  | typeErr : JSErr
  | refErr : JSErr
  | overflow : JSErr
  deriving DecidableEq

/-- `IsInt(v)` as a boolean. -/
def objIsInt (o : Obj) : Bool := (objAsInt o).isSome

/-- `IsCmd(v, cmd)` on a possibly-`EOF` buffer value. -/
def isCmdOpt : Option Obj → String → Bool
  | some t, c => isCmdNamed t c
  | none, _ => false

/-- `IsEOF(v)` (pdf.js lines 158-160) on a buffer value. -/
def isEOFOpt (o : Option Obj) : Bool := o.isNone

/-- `IsDict(v)` on a buffer value. -/
def isDictOpt : Option Obj → Bool
  | some t => isDict t
  | none => false

/-- `IsString(v)` (pdf.js lines 126-128) on a buffer value. -/
def isStrOpt : Option Obj → Bool
  | some (.str _) => true
  | _ => false

/-- `IsInt(v)` on a buffer value, returning the integer. -/
def optAsInt : Option Obj → Option Int
  | some t => objAsInt t
  | none => none

/-- `IsInt(v)` on a buffer value, as a boolean. -/
def optIsInt (o : Option Obj) : Bool := (optAsInt o).isSome

/-- Parser state (pdf.js lines 462-468): the two-token lookahead buffers
`buf1`/`buf2`, the inline-image counter, and the tokens the lexer has yet to
deliver. -/
structure PState where
  toks : List Obj
  buf1 : Option Obj
  buf2 : Option Obj
  inlineImg : Nat

/-- `Parser.shift()` (pdf.js lines 474-490): step the inline-image counter
(on an `ID` command `this.lexer.skipChar()` also consumes one raw byte,
below the granularity of the token list), move `buf2` into `buf1`, and
refill `buf2` with the next lexer token — or with `null` while inside
inline image data. -/
def pShift (st : PState) : PState :=
  let st1 :=
    if st.inlineImg > 0 then
      { st with inlineImg := if st.inlineImg < 2 then st.inlineImg + 1 else 0 }
    else if isCmdOpt st.buf2 "ID" then { st with inlineImg := 1 }
    else st
  if st1.inlineImg > 0 then { st1 with buf1 := st1.buf2, buf2 := some .nullv }
  else
    match st1.toks with
    | [] => { st1 with buf1 := st1.buf2, buf2 := none }
    | t :: r => { st1 with buf1 := st1.buf2, buf2 := some t, toks := r }

/-- `Parser.refill()` (pdf.js lines 470-473): two `lexer.getObj()` calls
into `buf1` and `buf2`. -/
def pRefill (st : PState) : PState :=
  match st.toks with
  | [] => { st with buf1 := none, buf2 := none }
  | [t] => { st with buf1 := some t, buf2 := none, toks := [] }
  | t1 :: t2 :: r => { st with buf1 := some t1, buf2 := some t2, toks := r }

/-- The `Parser` constructor (pdf.js lines 462-468): `inlineImg = 0` and an
initial `refill()`. -/
def pInit (toks : List Obj) : PState :=
  pRefill { toks := toks, buf1 := none, buf2 := none, inlineImg := 0 }

mutual

/-- `Parser.getObj()` (pdf.js lines 491-551).  The fuel stands for the JS
call stack; exhausting it is a stack overflow.  Branch by branch:

* `[` (array, lines 496-503): push `getObj()` results until `]`/`EOF` —
  but the source never shifts past the `[` before its `while` loop, so the
  first iteration re-enters `getObj` on the very same `[` buffer and the
  recursion never terminates: every array overflows the stack.  (At `EOF`
  the loop exit would call `this.error(...)`, a method the `Parser`
  prototype does not define, raising a TypeError.)
* `<<` (dictionary, lines 504-529): after the shift, a nonempty body makes
  the first loop iteration dereference an undefined global — `shift()`
  (line 510, after the non-fatal `error(...)` key log) or `var key = buf1`
  (line 512) — raising a ReferenceError, so no entry is ever stored; an
  immediate `>>` or `EOF` completes with an empty `Dict` (at `EOF` after a
  non-fatal `error(...)` log), and with streams allowed and `buf2` the
  `stream` keyword, `makeStream()` (lines 556-559) returns the `Error`
  sentinel.
* an `IsInt` buffer (lines 531-540) gives the integer or, with a following
  `IsInt` and an `R` command, `new Ref(num, this.buf1)`;
* a string (lines 541-545) passes through `decrypt` — the identity
  (lines 552-555) — and is returned;
* everything else (lines 547-550), including the `EOF` sentinel, is
  returned as is. -/
def parserGetObj (a : Bool) : Nat → PState → Except JSErr (Option Obj × PState)
  | 0, _ => .error .overflow
  | fuel + 1, st =>
    let st0 := if st.inlineImg = 2 then pRefill st else st
    if isCmdOpt st0.buf1 "[" then
      match pArrayLoop a fuel st0 [] with
      | .error e => .error e
      | .ok (elems, st1) =>
        if isEOFOpt st1.buf1 then .error .typeErr
        else .ok (some (.arr elems), pShift st1)
    else if isCmdOpt st0.buf1 "<<" then
      let st1 := pShift st0
      if !isCmdOpt st1.buf1 ">>" && !isEOFOpt st1.buf1 then .error .refErr
      else if a && isCmdOpt st1.buf2 "stream" then .ok (some .errorv, st1)
      else .ok (some (.dict []), pShift st1)
    else
      match optAsInt st0.buf1 with
      | some n =>
        let st1 := pShift st0
        match optAsInt st1.buf1, isCmdOpt st1.buf2 "R" with
        | some g, true => .ok (some (.ref n g), pShift (pShift st1))
        | _, _ => .ok (some (.num n), st1)
      | none =>
        if isStrOpt st0.buf1 then .ok (st0.buf1, pShift st0)
        else .ok (st0.buf1, pShift st0)

/-- The `while (!IsCmd(this.buf1, "]") && !IsEOF(this.buf1))` loop of the
array branch (pdf.js lines 498-500).  (`getObj` cannot return the `EOF`
sentinel when entered with a non-`EOF` `buf1`, so the pushed default is
never used.) -/
def pArrayLoop (a : Bool) : Nat → PState → List Obj →
    Except JSErr (List Obj × PState)
  | 0, _, _ => .error .overflow
  | fuel + 1, st, acc =>
    if !isCmdOpt st.buf1 "]" && !isEOFOpt st.buf1 then
      match parserGetObj a fuel st with
      | .error e => .error e
      | .ok (o, st1) => pArrayLoop a fuel st1 (acc ++ [o.getD .errorv])
    else .ok (acc, st)

end

/-- The token guard under which the linearization path exercises
`Parser.getObj`: the buffered token is not a `Dict` value (the lexer
produces none), not a `<<` command (the lexer emits `Cmd("<")` for the
`<<` of the source text, see `lexAngleOpen`), and not a `[` command (on
which `getObj` recurses unboundedly). -/
def linTokOk (t : Obj) : Bool :=
  !isDict t && !isCmdNamed t "<<" && !isCmdNamed t "["

/-- `linTokOk` on a possibly-`EOF` buffer value. -/
def linBufOk : Option Obj → Bool
  | none => true
  | some t => linTokOk t

/-- `linTokOk` over a whole token stream. -/
def linToksOk (toks : List Obj) : Bool := toks.all linTokOk

/-- `linTokOk` over a whole parser state. -/
def linStOk (st : PState) : Bool :=
  linToksOk st.toks && linBufOk st.buf1 && linBufOk st.buf2

/-- The `Linearization` constructor (pdf.js lines 566-577): builds its own
`Parser` (`allowStreams = false`) over a fresh lexer on the stream and
parses four objects.  When `IsInt(obj1) && IsInt(obj2) &&
IsCmd(obj3, "obj") && IsDict(this.linDict)` all hold, the source evaluates
`this.linDict.lookup("Linearized")` — `Dict` (pdf.js lines 83-100) defines
only `get`, `set` and `contains`, so the property is `undefined` and the
call raises a TypeError; that branch is unreachable from a parsed stream,
whose fourth object is never a `Dict`.  Otherwise the constructor completes
with `this.linDict` left as the fourth object. -/
def linearizationNew (toks : List Obj) (fuel : Nat) :
    Except JSErr (Option Obj) :=
  match parserGetObj false fuel (pInit toks) with
  | .error e => .error e
  | .ok (o1, st1) =>
    match parserGetObj false fuel st1 with
    | .error e => .error e
    | .ok (o2, st2) =>
      match parserGetObj false fuel st2 with
      | .error e => .error e
      | .ok (o3, st3) =>
        match parserGetObj false fuel st3 with
        | .error e => .error e
        | .ok (o4, _) =>
          if optIsInt o1 && optIsInt o2 && isCmdOpt o3 "obj" && isDictOpt o4
          then .error .typeErr
          else .ok o4

/-- The log text of pdf.js line 588 (the quotes the source puts around the
field name are elided, as in the other logged messages here). -/
def linFieldErrMsg (nm : String) : String :=
  nm ++ " field in linearization table is invalid"

/-- `Linearization.getInt(name)` (pdf.js lines 580-590).  On a `Dict` the
guard evaluates `linDict.lookup(name)`, which raises a TypeError (`Dict`
has no such method) — a branch unreachable from a parsed stream.  Otherwise
the guard fails and the getter falls through to `error(...)` and
`return 0`: the global logging helper is absent from these sources (only
its callers are) and is modelled, exactly as the line 443 call in the
lexer command loop, as a non-fatal log entry, so the getter returns 0 with
the message logged.  (The success path `return length` would read an
undefined variable, but it is dead: it needs the `lookup` call to have
succeeded first.) -/
def linGetInt (linDict : Option Obj) (nm : String) :
    Except JSErr (Int × List String) :=
  if isDictOpt linDict then .error .typeErr
  else .ok (0, [linFieldErrMsg nm])

/-- `Linearization.getHint(index)` (pdf.js lines 591-603), behind the four
`/H` accessors `hintsOffset`, `hintsLength`, `hintsOffset2`, `hintsLenth2`
(lines 609-620): on a `Dict`, `lookup` raises a TypeError; otherwise the
fall-through calls `this.error(...)` — the `Linearization` prototype
(lines 579-635) defines no `error` method, so the property is `undefined`
and the call raises a TypeError before the `return 0` below it can run. -/
def linGetHint (linDict : Option Obj) (_index : Nat) : Except JSErr Int :=
  if isDictOpt linDict then .error .typeErr else .error .typeErr

/-- The `length` getter (pdf.js lines 604-608): 0 for a non-`Dict`
`linDict` (without any log), else `getInt("L")`. -/
def linLength (linDict : Option Obj) : Except JSErr (Int × List String) :=
  if !isDictOpt linDict then .ok (0, []) else linGetInt linDict "L"

/-- The `PDFDoc.linearization` getter (pdf.js lines 727-737) on a stream of
the given length whose lexer yields the given tokens: `false` (`none`) when
the length is 0 or `linearization.length != length`, otherwise the
linearization object. -/
def pdfDocLinearization (streamLength : Nat) (toks : List Obj) (fuel : Nat) :
    Except JSErr (Option (Option Obj)) :=
  if streamLength = 0 then .ok none
  else
    match linearizationNew toks fuel with
    | .error e => .error e
    | .ok ld =>
      match linLength ld with
      | .error e => .error e
      | .ok (len, _) =>
        if len ≠ (streamLength : Int) then .ok none else .ok (some ld)

/-- Lexer token stream of the first-object header
`1 0 obj << /Linearized 1 /L 9999 >> endobj` of a stream of length 100:
the `<<` and `>>` of the source text lex to the single-character commands
`Cmd("<")` and `Cmd(">")` (see `lexAngleOpen`/`lexAngleClose`), and each
`Name`/`Cmd` allocation carries its identity stamp. -/
def linToksEx : List Obj :=
  [.num 1, .num 0, .cmd 0 "obj", .cmd 3 "<", .name 1 "Linearized",
   .num 1, .name 2 "L", .num 9999, .cmd 4 ">", .cmd 5 "endobj"]

/-! ## ByteStream (`Stream`, pdf.js lines 4-59) -/

/-- The `Stream` object: a byte buffer and the cursor `this.pos`.  (Each
`getChar` is `String.fromCharCode` of the byte at the cursor.) -/
structure Stream where
  bytes : List Nat
  pos : Nat

/-- JS `String.prototype.indexOf`: the smallest start position at which the
needle occurs (it occurs at `i` when it is a prefix of the suffix starting
at `i`; the empty needle occurs at 0). -/
def strIndexOf (hay needle : List Nat) : Option Nat :=
  (List.range (hay.length + 1)).find? (fun i => decide (needle <+: hay.drop i))

/-- JS `String.prototype.lastIndexOf`: the greatest start position at which
the needle occurs (for the empty needle that is `hay.length`). -/
def strLastIndexOf (hay needle : List Nat) : Option Nat :=
  ((List.range (hay.length + 1)).reverse).find?
    (fun i => decide (needle <+: hay.drop i))

/-- `Stream.find(needle, limit, backwards)` (pdf.js lines 41-55): reads up
to `limit` characters from the current position (clamping the limit to the
remaining length), restores the position, searches the collected window
with `indexOf`/`lastIndexOf`, and on success advances the position by the
found index.  `limit` is a count (every call site passes a positive
literal). -/
def Stream.find (s : Stream) (needle : List Nat) (limit : Nat)
    (backwards : Bool) : Bool × Stream :=
  let length := s.bytes.length
  let pos := s.pos
  let lim := if pos + limit > length then length - pos else limit
  let str := (s.bytes.drop pos).take lim
  let index := if backwards then strLastIndexOf str needle
    else strIndexOf str needle
  match index with
  | none => (false, s)
  | some i => (true, { s with pos := pos + i })

/-- The window of characters `Stream.find` collects: at most `limit` bytes
starting at the current position. -/
def Stream.window (s : Stream) (limit : Nat) : List Nat :=
  (s.bytes.drop s.pos).take
    (if s.pos + limit > s.bytes.length then s.bytes.length - s.pos else limit)

/-! ## FontProgramTranscoder (`fonts.js`) -/

/-- A decoded charstring element (`Type1Parser.decodeCharString` pushes
numbers, `NaN` for a truncated multi-byte operand, or operator names). -/
inductive CSTok where
  | num (v : Int)
  | nan : CSTok
  | cmd (s : String)
  deriving DecidableEq

/-- An entry of the charstring command dictionaries: a named operator, or
the `-1` marker whose decoding raises the not-implemented error. -/
inductive CSEntry where
  | op (s : String)
  | unimplemented : CSEntry

/-- `charStringDictionary` (fonts.js lines 1120-1187) without the `"12"`
sub-table: `null` entries (`9` closepath) and missing keys both make
`!command` true and are modelled as `none`. -/
def charStringDictionary (v : Nat) : Option CSEntry :=
  if v = 1 then some (.op "hstem")
  else if v = 3 then some (.op "vstem")
  else if v = 4 then some (.op "vmoveto")
  else if v = 5 then some (.op "rlineto")
  else if v = 6 then some (.op "hlineto")
  else if v = 7 then some (.op "vlineto")
  else if v = 8 then some (.op "rrcurveto")
  else if v = 10 then some (.op "callsubr")
  else if v = 11 then some (.op "return")
  else if v = 13 then some (.op "hsbw")
  else if v = 14 then some (.op "endchar")
  else if v = 21 then some (.op "rmoveto")
  else if v = 22 then some (.op "hmoveto")
  else if v = 30 then some (.op "vhcurveto")
  else if v = 31 then some (.op "hvcurveto")
  else none

/-- The `"12"` escape sub-table (fonts.js lines 1142-1180): `0`
(dotsection) and `33` (setcurrentpoint) are `null`; `6` (seac) and `7`
(sbw) are `-1`, the not-implemented marker. -/
def charStringDictionary12 (v : Nat) : Option CSEntry :=
  if v = 1 then some (.op "vstem")
  else if v = 2 then some (.op "hstem")
  else if v = 6 ∨ v = 7 then some .unimplemented
  else if v = 12 then some (.op "div")
  else if v = 16 then some (.op "callothersubr")
  else if v = 17 then some (.op "pop")
  else none

/-- Message of the fatal `error(...)` call of fonts.js line 1213 (per the
failure policy of the spec this is fatal for the one font; the call text is
abbreviated). -/
def csUnimplementedMsg : String :=
  "Support for this Type1 command is not implemented in charstring"

/-- JS `ToInt32` of a nonnegative integer. -/
def toInt32 (x : Int) : Int :=
  let r := x % 4294967296
  if 2147483648 ≤ r then r - 4294967296 else r

/-- The value pushed by the `255` branch (fonts.js lines 1224-1227):
`high = byte >> 1; value = (byte - high) << 24 | b2 << 16 | b3 << 8 | b4` —
the high byte is halved (rounding up) before the shift.  For bytes in
0..255 the or-ed fields occupy disjoint bit ranges, so the bitwise ors
equal the sum; a read past the end of the array yields `undefined`, which
contributes 0 bits under `ToInt32` (`NaN << 24` in the first field), which
is also what the missing-element default 0 produces here. -/
def cs255Val (rest : List Nat) : Int :=
  toInt32 ((((rest.headD 0) - (rest.headD 0) / 2 : Nat) : Int) * 16777216 +
    ((rest.getD 1 0 : Nat) : Int) * 65536 +
    ((rest.getD 2 0 : Nat) : Int) * 256 + ((rest.getD 3 0 : Nat) : Int))

/-- `decodeCharString(aArray)` (fonts.js lines 1189-1234) over the byte
array (entries 0..255, as produced by `decrypt`).  Values below 32 are
commands (`12` escapes into the sub-table; `!command` entries are skipped;
`-1` entries raise the fatal error); `[32,246]` decodes to `v - 139`;
`[247,250] w` to `(v-247)*256 + w + 108`; `[251,254] w` to
`-(v-251)*256 - w - 108`; `255` reads four bytes — but the source first
computes `high = byte >> 1` and uses `(byte - high) << 24`, i.e. the high
byte is halved (rounding up) before being shifted.  For bytes in 0..255 the
bitwise ors combine disjoint bit ranges and equal the sum used here.
Reading past the end of the array yields `undefined`: `parseInt(undefined)`
is `NaN` (pushed as `nan`, ending the loop), while in the `255` branch
`undefined` contributes 0 bits. -/
def decodeCharString : (l : List Nat) → Except String (List CSTok)
  | [] => .ok []
  | v :: rest =>
    if v < 32 then
      if v = 12 then
        match rest with
        | [] => .ok []
        | e :: rest2 =>
          match charStringDictionary12 e with
          | none => decodeCharString rest2
          | some .unimplemented => .error csUnimplementedMsg
          | some (.op s) =>
            Except.map (fun t => .cmd s :: t) (decodeCharString rest2)
      else
        match charStringDictionary v with
        | none => decodeCharString rest
        | some .unimplemented => .error csUnimplementedMsg
        | some (.op s) =>
          Except.map (fun t => .cmd s :: t) (decodeCharString rest)
    else if v ≤ 246 then
      Except.map (fun t => .num ((v : Int) - 139) :: t) (decodeCharString rest)
    else if v ≤ 250 then
      match rest with
      | [] => .ok [.nan]
      | w :: rest2 =>
        Except.map (fun t => .num (((v : Int) - 247) * 256 + (w : Int) + 108) :: t)
          (decodeCharString rest2)
    else if v ≤ 254 then
      match rest with
      | [] => .ok [.nan]
      | w :: rest2 =>
        Except.map
          (fun t => .num (-(((v : Int) - 251) * 256) - (w : Int) - 108) :: t)
          (decodeCharString rest2)
    else
      Except.map (fun t => .num (cs255Val rest) :: t)
        (decodeCharString (rest.drop 4))
  termination_by l => l.length
  decreasing_by all_goals (simp only [List.length_cons, List.length_drop]; omega)

/-- A record pushed by `CFF.getOrderedCharStrings` (fonts.js lines
1440-1444): the glyph name, its looked-up unicode, and a copy of the
charstring data (an opaque value here). -/
structure CharstringRec (α : Type) where
  glyph : String
  unicode : Nat
  charstring : α

/-- JS falsiness of a looked-up unicode value: `undefined` or the number 0. -/
def jsFalsyNat : Option Nat → Bool
  | none => true
  | some u => u = 0

/-- Modelled from the spec: the `warn(...)` helper called at fonts.js line
1438 is defined nowhere under `src/`; per the spec it is a non-fatal log, so
the message is collected in a list.  The message suffix of that call. -/
def glyphWarnSuffix : String :=
  " does not have an entry in the glyphs unicode dictionary"

/-- The accumulation loop of `CFF.getOrderedCharStrings` (fonts.js lines
1433-1446): glyphs with a falsy unicode are dropped, and warned unless the
name is `.notdef`; the rest are pushed with their unicode.  `tbl` stands
for the `GlyphsUnicode` table, which is not among the sources (modelled
from the spec: a fixed glyph-name to unicode map). -/
def gocsLoop (tbl : String → Option Nat) :
    List (String × α) → List (CharstringRec α) × List String
  | [] => ([], [])
  | g :: rest =>
    let r := gocsLoop tbl rest
    match tbl g.1 with
    | none =>
      if g.1 ≠ ".notdef" then (r.1, (g.1 ++ glyphWarnSuffix) :: r.2) else r
    | some u =>
      if u = 0 then
        if g.1 ≠ ".notdef" then (r.1, (g.1 ++ glyphWarnSuffix) :: r.2) else r
      else (⟨g.1, u, g.2⟩ :: r.1, r.2)

/-- `CFF.getOrderedCharStrings(aGlyphs)` (fonts.js lines 1430-1452),
returning the kept records and the warnings.  The final
`charstrings.sort(function(a, b) { return a.unicode > b.unicode; })` uses a
boolean comparator, coerced to 1/0: a stable sort driven by it places `a`
before `b` exactly when the comparator does not order `a` after `b`, i.e.
when `a.unicode ≤ b.unicode`; it is modelled as a stable merge sort by that
relation. -/
def getOrderedCharStrings (tbl : String → Option Nat)
    (glyphs : List (String × α)) : List (CharstringRec α) × List String :=
  let r := gocsLoop tbl glyphs
  (r.1.mergeSort (fun a b => decide (a.unicode ≤ b.unicode)), r.2)

end PdfJs

namespace PdfJs

/-- C1: interpreting the token stream of the content stream
`1 0 0 RG 100 100 m 200 200 l S` against the `EchoGraphics` sink produces
exactly the calls `RG(1,0,0)`, `m(100,100)`, `l(200,200)`, `S()` in that
order, bracketed by `beginDrawing`/`endDrawing`; and in general, whenever a
command token is dispatched successfully, the operand stack passed to the
next step is `[]` — it is cleared before the next token is read. -/
theorem interpret_scenarioB :
    (interpretHelper EchoGraphics 0 0 612 792
        [.num 1, .num 0, .num 0, .cmd 0 "RG",
         .num 100, .num 100, .cmd 1 "m",
         .num 200, .num 200, .cmd 2 "l", .cmd 3 "S"] =
      .ok [.beginDrawing 0 0 612 792,
           .op "RG" [.num 1, .num 0, .num 0],
           .op "m" [.num 100, .num 100],
           .op "l" [.num 200, .num 200],
           .op "S" [],
           .endDrawing]) ∧
    (∀ (gfx : String → Option Nat) (id : Nat) (c : String)
        (rest args : List Obj) (acc : List GEvent) (n : Nat),
      gfx c = some n → startsWithDollar c = false → n = args.length →
      interpretLoop gfx (.cmd id c :: rest) args acc =
        interpretLoop gfx rest [] (acc ++ [.op c args])) := by
  constructor
  · rfl
  · intro gfx id c rest args acc n hg hd hn
    simp [interpretLoop, hg, hd, hn]

/-- Witness for the universally quantified clearing clause of C1, at the
concrete dispatch of `S` with an empty operand stack. -/
theorem interpret_scenarioB_witness :
    interpretLoop EchoGraphics [.cmd 3 "S"] [] [] =
      interpretLoop EchoGraphics [] [] [.op "S" []] :=
  interpret_scenarioB.2 EchoGraphics 3 "S" [] [] [] 0 rfl rfl rfl

/-- C2 counterexample: on the token stream `XYZZY 100 100 m` the unknown
command `XYZZY` makes `interpretHelper` throw (`Interpreter.error`,
pdf.js line 842): interpretation aborts with an exception, the subsequent
`m` operator is never dispatched and `endDrawing` is never reached — the
claimed log-skip-continue behaviour does not happen.  Likewise an arity
mismatch (`m` with one operand) throws instead of skipping the call. -/
theorem interpret_malformed_aborts_cex :
    (interpretHelper EchoGraphics 0 0 612 792
        [.cmd 0 "XYZZY", .num 100, .num 100, .cmd 1 "m"] =
      .error (unknownCmdMsg "XYZZY")) ∧
    (interpretHelper EchoGraphics 0 0 612 792
        [.num 100, .cmd 0 "m", .cmd 1 "S"] =
      .error (arityErrMsg "m")) := by
  constructor <;> rfl

/-- C2 (amended): a command token with no sink method (or a `$`-prefixed
one), and a command token whose arity does not match the operand count, make
`interpretHelper` raise an error that aborts interpretation — regardless of
what tokens follow, so no subsequent operator is interpreted and
`endDrawing` is not reached. -/
theorem interpret_malformed_aborts :
    (∀ (gfx : String → Option Nat) (id : Nat) (c : String)
        (rest args : List Obj) (acc : List GEvent),
      (gfx c = none ∨ startsWithDollar c = true) →
      interpretLoop gfx (.cmd id c :: rest) args acc =
        .error (unknownCmdMsg c)) ∧
    (∀ (gfx : String → Option Nat) (id : Nat) (c : String)
        (rest args : List Obj) (acc : List GEvent) (n : Nat),
      gfx c = some n → startsWithDollar c = false → n ≠ args.length →
      interpretLoop gfx (.cmd id c :: rest) args acc =
        .error (arityErrMsg c)) := by
  constructor
  · intro gfx id c rest args acc h
    rcases h with h | h
    · simp [interpretLoop, h]
    · cases hg : gfx c <;> simp [interpretLoop, hg, h]
  · intro gfx id c rest args acc n hg hd hn
    simp [interpretLoop, hg, hd, hn]

/-- Witness for C2 (amended): the unknown command `XYZZY` and the
under-supplied `m` both abort, at concrete inputs. -/
theorem interpret_malformed_aborts_witness :
    (interpretLoop EchoGraphics [.cmd 0 "XYZZY"] [] [] =
      .error (unknownCmdMsg "XYZZY")) ∧
    (interpretLoop EchoGraphics [.cmd 0 "m", .cmd 1 "S"] [.num 100] [] =
      .error (arityErrMsg "m")) :=
  ⟨interpret_malformed_aborts.1 EchoGraphics 0 "XYZZY" [] [] [] (.inl rfl),
   interpret_malformed_aborts.2 EchoGraphics 0 "m" [.cmd 1 "S"] [.num 100] []
     2 rfl rfl (by decide)⟩

/-- Every populated slot of `this.entries` survives the rest of a
`readXRefTable` run, except that slot 0 can be replaced by the synthetic
free entry `(0, 65535, free)` when the legacy renumbering special case
fires. -/
theorem xrefRun_preserves (toks : List Obj) (ents : XEntries) (mode : XMode) :
    ∀ k e, ents k = some e →
      (xrefRun toks ents mode).2 k = some e ∨
      (k = 0 ∧ (xrefRun toks ents mode).2 0 = some ⟨0, 65535, .free⟩) := by
  induction toks, ents, mode using xrefRun.induct with
  | case1 ents i first stop hi o1 o2 o3 rest off gen h2 h1 k h3 he hc ih =>
    intro k' e' hk
    obtain ⟨hc1, hc2, hc3, hc4, hc5⟩ := hc
    subst hc1; subst hc2; subst hc3; subst hc4; subst hc5
    rw [xrefRun.eq_def]
    simp only [hi, if_true, h1, h2, h3, he]
    simp only [true_and, and_self, if_pos, ite_true, eq_self_iff_true]
    by_cases hk0 : k' = 0
    · subst hk0
      rcases ih 0 ⟨0, 65535, .free⟩ (by simp [updE]) with h | h
      · exact .inr ⟨rfl, h⟩
      · exact .inr ⟨rfl, h.2⟩
    · rcases ih k' e' (by simpa [updE, hk0] using hk) with h | h
      · exact .inl h
      · exact absurd h.1 hk0
  | case2 ents i first stop hi o1 o2 o3 rest off gen h2 h1 k h3 he hc ih =>
    intro k' e' hk
    rw [xrefRun.eq_def]
    simp only [hi, if_true, h1, h2, h3, he, hc, if_neg, ite_false, if_pos, ite_true]
    have hki : k' ≠ i := fun h => by rw [h, he] at hk; exact Option.noConfusion hk
    rcases ih k' e' (by simpa [updE, hki] using hk) with h | h
    · exact .inl h
    · exact .inr h
  | case3 ents i first stop hi o1 o2 o3 rest off gen h2 h1 k h3 he ih =>
    intro k' e' hk
    rw [xrefRun.eq_def]
    simp only [hi, if_true, h1, h2, h3, he, if_neg, ite_true, ite_false]
    exact ih k' e' hk
  | case4 ents i first stop hi o1 o2 o3 rest off gen h2 h1 h3 =>
    intro k' e' hk
    rw [xrefRun.eq_def]
    simp only [hi, if_true, h1, h2, h3, ite_true]
    exact .inl hk
  | case5 ents i first stop hi o1 o2 o3 rest hfail =>
    intro k' e' hk
    rw [xrefRun.eq_def]
    rcases hx : objAsInt o1 with _ | off
    · simp only [hi, hx, ite_true]
      exact .inl hk
    · rcases hy : objAsInt o2 with _ | gen
      · simp only [hi, hx, hy, ite_true]
        exact .inl hk
      · exact (hfail off gen hx hy).elim
  | case6 toks ents i first stop hi hshape =>
    intro k' e' hk
    rw [xrefRun.eq_def]
    rcases toks with _ | ⟨a, _ | ⟨b, _ | ⟨c, d⟩⟩⟩
    · simp only [hi, ite_true]
      exact .inl hk
    · simp only [hi, ite_true]
      exact .inl hk
    · simp only [hi, ite_true]
      exact .inl hk
    · exact (hshape a b c d rfl).elim
  | case7 toks ents i first stop hi ih =>
    intro k' e' hk
    rw [xrefRun.eq_def]
    simp only [hi, ite_false, if_neg]
    exact ih k' e' hk
  | case8 ents =>
    intro k' e' hk
    rw [xrefRun.eq_def]
    exact .inl hk
  | case9 ents o rest ht =>
    intro k' e' hk
    rw [xrefRun.eq_def]
    simp only [ht, ite_true]
    exact .inl hk
  | case10 ents o ht first o2 rest2 h1 n h2 hguard =>
    intro k' e' hk
    rw [xrefRun.eq_def]
    simp only [ht, h1, h2, hguard, ite_true, ite_false]
    exact .inl hk
  | case11 ents o ht first o2 rest2 h1 n h2 hguard ih =>
    intro k' e' hk
    rw [xrefRun.eq_def]
    simp only [ht, h1, h2, hguard, ite_false, if_neg]
    exact ih k' e' hk
  | case12 ents o ht first o2 rest2 h1 h2 =>
    intro k' e' hk
    rw [xrefRun.eq_def]
    simp only [ht, h1, h2, ite_false]
    exact .inl hk
  | case13 ents o rest ht hshape =>
    intro k' e' hk
    rw [xrefRun.eq_def]
    rcases hx : objAsInt o with _ | first
    · simp only [ht, hx, ite_false]
      exact .inl hk
    · rcases rest with _ | ⟨o2, rest2⟩
      · simp only [ht, hx, ite_false]
        exact .inl hk
      · exact (hshape first o2 rest2 hx rfl).elim

/-- Pointwise description of `storeRange`: index `k` holds the triple stored
at its declared position, all other indices are untouched. -/
theorem storeRange_get (ts : List (Int × Int × Bool)) :
    ∀ (ents : XEntries) (i k : Nat),
      storeRange ents i ts k =
        if i ≤ k ∧ k - i < ts.length then some (entryOf (ts.getD (k - i) (0, 0, false)))
        else ents k := by
  induction ts with
  | nil =>
    intro ents i k
    simp [storeRange]
  | cons t ts ih =>
    intro ents i k
    rw [storeRange, ih]
    rcases Nat.lt_trichotomy k i with hki | hki | hki
    · rw [if_neg (by omega), if_neg (by omega)]
      simp only [updE]
      rw [if_neg (by omega)]
    · subst hki
      rw [if_neg (by omega), if_pos ⟨Nat.le_refl k, by simp⟩]
      simp [updE]
    · by_cases h2 : k - (i + 1) < ts.length
      · rw [if_pos ⟨by omega, h2⟩, if_pos ⟨by omega, by simp; omega⟩]
        have hidx : k - i = (k - (i + 1)) + 1 := by omega
        rw [hidx, List.getD_cons_succ]
      · rw [if_neg (by omega), if_neg (by simp; omega)]
        simp only [updE]
        rw [if_neg (by omega)]

/-- Running the entry loop of `readXRefTable` over the encoded triples `ts`
from loop state `(i, first, first + n)` with `n = ts.length` remaining
entries: when the renumbering special case cannot fire (`first ≠ 1`, or `i`
already beyond 1) and the targeted slots are unpopulated, every triple is
stored at its declared index and the loop returns to the outer loop on the
remaining tokens. -/
theorem xref_encode_run (ts : List (Int × Int × Bool)) :
    ∀ (rest : List Obj) (ents : XEntries) (i first : Nat),
      (∀ t ∈ ts, tripleWf t) →
      (∀ k, i ≤ k → ents k = none) →
      (first ≠ 1 ∨ 1 < i) →
      xrefRun (encodeEntryToks ts ++ rest) ents (.inSub i first (i + ts.length)) =
        xrefRun rest (storeRange ents i ts) .outer := by
  induction ts with
  | nil =>
    intro rest ents i first _ _ _
    rw [xrefRun.eq_def]
    simp [encodeEntryToks, storeRange]
  | cons t ts ih =>
    intro rest ents i first hwf hfresh hno
    obtain ⟨o, g, f⟩ := t
    have hw := hwf (o, g, f) (List.mem_cons_self _ _)
    simp only [tripleWf] at hw
    obtain ⟨hw1, hw2, hw3, hw4⟩ := hw
    have hno' : ¬(i = 1 ∧ first = 1 ∧ o = 0 ∧ g = 65535 ∧
        (if f then XKind.free else XKind.uncompressed) = XKind.free) := by
      rcases hno with h | h
      · rintro ⟨-, h1, -⟩; exact h h1
      · rintro ⟨h1, -⟩; omega
    have hstep : xrefRun (encodeEntryToks ((o, g, f) :: ts) ++ rest) ents
        (.inSub i first (i + ((o, g, f) :: ts).length)) =
        xrefRun (encodeEntryToks ts ++ rest)
          (updE ents i ⟨o, g, if f then .free else .uncompressed⟩)
          (.inSub (i + 1) first (i + (ts.length + 1))) := by
      rw [xrefRun.eq_def]
      have hlt : i < i + (ts.length + 1) := by omega
      have hobj1 : objAsInt (.num o) = some o := by
        simp only [objAsInt, if_pos]
        rw [if_pos ⟨hw1, hw2⟩]
      have hobj2 : objAsInt (.num g) = some g := by
        simp only [objAsInt, if_pos]
        rw [if_pos ⟨hw3, hw4⟩]
      have hflag : xflag (.cmd 0 (if f then "f" else "n")) =
          some (if f then XKind.free else XKind.uncompressed) := by
        cases f <;> simp [xflag]
      simp only [encodeEntryToks, List.cons_append, List.length_cons, hlt,
        if_true, hobj1, hobj2, hflag, hfresh i (Nat.le_refl i), hno', if_neg,
        ite_true, ite_false]
    rw [hstep]
    have harith : i + (ts.length + 1) = (i + 1) + ts.length := by omega
    rw [harith]
    rw [ih (rest) (updE ents i ⟨o, g, if f then .free else .uncompressed⟩)
      (i + 1) first (fun t' ht' => hwf t' (List.mem_cons_of_mem _ ht'))
      (by
        intro k hk
        simp only [updE]
        rw [if_neg (by omega)]
        exact hfresh k (by omega))
      (by rcases hno with h | h
          · exact .inl h
          · exact .inr (by omega))]
    rfl

/-- The keyword `trailer` ends `readXRefTable` with `true` and the entry
table as accumulated. -/
theorem xrefRun_trailer (ents : XEntries) (cid : Nat) (rest : List Obj) :
    xrefRun (.cmd cid "trailer" :: rest) ents .outer = (true, ents) := by
  rw [xrefRun.eq_def]
  simp [isCmdNamed]

/-- Reading a well-formed subsection header `first n` enters the entry loop
at `i = first` with bound `first + n`. -/
theorem xrefRun_header (first n : Int) (rest : List Obj) (ents : XEntries)
    (h0 : 0 ≤ first) (h1 : 0 ≤ n) (hs : first + n < 2147483648) :
    xrefRun (.num first :: .num n :: rest) ents .outer =
      xrefRun rest ents (.inSub first.toNat first.toNat (first + n).toNat) := by
  rw [xrefRun.eq_def]
  have hobj1 : objAsInt (.num first) = some first := by
    simp only [objAsInt]
    rw [if_pos (by omega)]
  have hobj2 : objAsInt (.num n) = some n := by
    simp only [objAsInt]
    rw [if_pos (by omega)]
  have hg : ¬(first < 0 ∨ n < 0 ∨ 2147483648 ≤ first + n) := by omega
  simp [isCmdNamed, hobj1, hobj2, hg]

/-- One iteration of the entry loop storing an entry at its declared index
(the renumbering special case does not fire). -/
theorem xrefRun_store_step (o g : Int) (f : Bool) (cid : Nat) (rest : List Obj)
    (ents : XEntries) (i first stop : Nat)
    (hi : i < stop) (ho : -2147483648 ≤ o ∧ o < 2147483648)
    (hg : -2147483648 ≤ g ∧ g < 2147483648) (hents : ents i = none)
    (hno : ¬(i = 1 ∧ first = 1 ∧ o = 0 ∧ g = 65535 ∧ f = true)) :
    xrefRun (.num o :: .num g :: .cmd cid (if f then "f" else "n") :: rest)
        ents (.inSub i first stop) =
      xrefRun rest (updE ents i ⟨o, g, if f then .free else .uncompressed⟩)
        (.inSub (i + 1) first stop) := by
  rw [xrefRun.eq_def]
  have hobj1 : objAsInt (.num o) = some o := by
    simp only [objAsInt]
    rw [if_pos ho]
  have hobj2 : objAsInt (.num g) = some g := by
    simp only [objAsInt]
    rw [if_pos hg]
  have hflag : xflag (.cmd cid (if f then "f" else "n")) =
      some (if f then XKind.free else XKind.uncompressed) := by
    cases f <;> simp [xflag]
  have hno' : ¬(i = 1 ∧ first = 1 ∧ o = 0 ∧ g = 65535 ∧
      (if f then XKind.free else XKind.uncompressed) = XKind.free) := by
    cases f
    · rintro ⟨-, -, -, -, hk⟩
      simp at hk
    · simpa using hno
  simp only [hi, if_true, hobj1, hobj2, hflag, hents, hno', if_neg, ite_true,
    ite_false]

/-- One iteration of the entry loop hitting the legacy special case
(pdf.js lines 677-685): at `i == 1`, `first == 1`, on the synthetic free
entry `0 65535 f` with slot 1 unpopulated, the entry goes to index 0 and the
loop continues as `i = 1`, `first = 0`, with the bound decreased by one. -/
theorem xrefRun_renumber_step (cid : Nat) (rest : List Obj) (ents : XEntries)
    (stop : Nat) (hstop : 1 < stop) (hents : ents 1 = none) :
    xrefRun (.num 0 :: .num 65535 :: .cmd cid "f" :: rest) ents
        (.inSub 1 1 stop) =
      xrefRun rest (updE ents 0 ⟨0, 65535, .free⟩) (.inSub 1 0 (stop - 1)) := by
  rw [xrefRun.eq_def]
  simp [objAsInt, xflag, hstop, hents]

/-- C3 counterexample: in the single classic table with subsections
`0 1` (entry `5 0 n` for object 0) and `1 1` (the synthetic free entry
`0 65535 f`), the first-encountered entry for object 0 is `(5, 0, n)` — as
the run over just the first subsection shows — but after the full table the
retained entry for object 0 is the later synthetic free entry
`(0, 65535, f)`: the renumbering special case stores at index 0 without
checking that index 0 is already populated, so the first-encountered entry
is overwritten. -/
theorem xref_first_wins_cex :
    ((readXRefTable
        [.num 0, .num 1, .num 5, .num 0, .cmd 0 "n", .cmd 1 "trailer"]
        emptyEntries).2 0 = some ⟨5, 0, .uncompressed⟩) ∧
    ((readXRefTable
        [.num 0, .num 1, .num 5, .num 0, .cmd 0 "n",
         .num 1, .num 1, .num 0, .num 65535, .cmd 1 "f", .cmd 2 "trailer"]
        emptyEntries).1 = true) ∧
    ((readXRefTable
        [.num 0, .num 1, .num 5, .num 0, .cmd 0 "n",
         .num 1, .num 1, .num 0, .num 65535, .cmd 1 "f", .cmd 2 "trailer"]
        emptyEntries).2 0 = some ⟨0, 65535, .free⟩) ∧
    (XEntry.mk 0 65535 .free ≠ XEntry.mk 5 0 .uncompressed) := by
  refine ⟨?_, ?_, ?_, by decide⟩ <;>
    simp [readXRefTable, xrefRun, objAsInt, xflag, isCmdNamed, updE,
      emptyEntries]

/-- C3 (amended): during `readXRefTable`, an already populated entry is
never overwritten — `resolve` keeps the first-encountered entry — for every
object number other than 0; the entry of object number 0 can additionally
only ever be replaced by the synthetic free entry `(0, 65535, free)` stored
by the legacy renumbering special case. -/
theorem xref_first_wins (toks : List Obj) (ents0 : XEntries) (k : Nat)
    (e : XEntry) (h : ents0 k = some e) :
    (readXRefTable toks ents0).2 k = some e ∨
      (k = 0 ∧ (readXRefTable toks ents0).2 0 = some ⟨0, 65535, .free⟩) :=
  xrefRun_preserves toks ents0 .outer k e h

/-- Witness for C3 (amended) at a concrete populated table. -/
theorem xref_first_wins_witness :
    (readXRefTable [.cmd 0 "trailer"]
        (updE emptyEntries 3 ⟨7, 0, .uncompressed⟩)).2 3 =
        some ⟨7, 0, .uncompressed⟩ ∨
      (3 = 0 ∧ (readXRefTable [.cmd 0 "trailer"]
          (updE emptyEntries 3 ⟨7, 0, .uncompressed⟩)).2 0 =
          some ⟨0, 65535, .free⟩) :=
  xref_first_wins [.cmd 0 "trailer"] (updE emptyEntries 3 ⟨7, 0, .uncompressed⟩)
    3 ⟨7, 0, .uncompressed⟩ (by simp [updE])

/-- C4 counterexample: a table whose first subsection `1 1` stores a normal
entry for object 1 and whose second subsection `1 1` consists exactly of the
synthetic free entry `0 65535 f` at `first == 1`, `i == 1`: the claim says
this second subsection is renumbered to start at 0, i.e. that its entry is
stored at index 0 — but because object 1 is already populated the special
case never fires, nothing is stored at index 0, and the table keeps only the
first subsection's entry at index 1. -/
theorem xref_renumber_cex :
    ((readXRefTable
        [.num 1, .num 1, .num 10, .num 0, .cmd 0 "n",
         .num 1, .num 1, .num 0, .num 65535, .cmd 1 "f", .cmd 2 "trailer"]
        emptyEntries).1 = true) ∧
    ((readXRefTable
        [.num 1, .num 1, .num 10, .num 0, .cmd 0 "n",
         .num 1, .num 1, .num 0, .num 65535, .cmd 1 "f", .cmd 2 "trailer"]
        emptyEntries).2 1 = some ⟨10, 0, .uncompressed⟩) ∧
    ((readXRefTable
        [.num 1, .num 1, .num 10, .num 0, .cmd 0 "n",
         .num 1, .num 1, .num 0, .num 65535, .cmd 1 "f", .cmd 2 "trailer"]
        emptyEntries).2 0 = none) := by
  refine ⟨?_, ?_, ?_⟩ <;>
    simp [readXRefTable, xrefRun, objAsInt, xflag, isCmdNamed, updE,
      emptyEntries]

/-- C4 (amended): reading a fresh classic table whose subsection is declared
to start at index 1 and whose entry at `i == 1` is `0 65535 f` renumbers the
subsection to start at 0 — that entry lands at index 0 and every following
entry shifts down by one — provided object number 1 is not already populated
(on a fresh table it is not); a subsection that does not match the
conditions (declared first index ≠ 1, or a first entry other than the
synthetic free one) stores its entries at exactly the declared indices, with
no renumbering. -/
theorem xref_renumber :
    (∀ (ts : List (Int × Int × Bool)),
      (∀ t ∈ ts, tripleWf t) → (ts.length : Int) + 2 < 2147483648 →
      ((readXRefTable (subsectionToks 1 ((0, 65535, true) :: ts))
          emptyEntries).1 = true ∧
       (readXRefTable (subsectionToks 1 ((0, 65535, true) :: ts))
          emptyEntries).2 0 = some ⟨0, 65535, .free⟩ ∧
       (∀ j, j < ts.length →
         (readXRefTable (subsectionToks 1 ((0, 65535, true) :: ts))
            emptyEntries).2 (j + 1) =
           some (entryOf (ts.getD j (0, 0, false)))) ∧
       (∀ k, ts.length + 1 ≤ k →
         (readXRefTable (subsectionToks 1 ((0, 65535, true) :: ts))
            emptyEntries).2 k = none))) ∧
    (∀ (first : Nat) (ts : List (Int × Int × Bool)),
      first ≠ 1 → (∀ t ∈ ts, tripleWf t) →
      (first : Int) + ts.length < 2147483648 →
      ((readXRefTable (subsectionToks first ts) emptyEntries).1 = true ∧
       (∀ j, j < ts.length →
         (readXRefTable (subsectionToks first ts) emptyEntries).2 (first + j) =
           some (entryOf (ts.getD j (0, 0, false)))) ∧
       (∀ k, k < first ∨ first + ts.length ≤ k →
         (readXRefTable (subsectionToks first ts) emptyEntries).2 k = none))) ∧
    (∀ (t0 : Int × Int × Bool) (ts : List (Int × Int × Bool)),
      ¬(t0.1 = 0 ∧ t0.2.1 = 65535 ∧ t0.2.2 = true) →
      (∀ t ∈ t0 :: ts, tripleWf t) → (ts.length : Int) + 2 < 2147483648 →
      ((readXRefTable (subsectionToks 1 (t0 :: ts)) emptyEntries).1 = true ∧
       (readXRefTable (subsectionToks 1 (t0 :: ts)) emptyEntries).2 0 = none ∧
       (∀ j, j < (t0 :: ts).length →
         (readXRefTable (subsectionToks 1 (t0 :: ts)) emptyEntries).2 (1 + j) =
           some (entryOf ((t0 :: ts).getD j (0, 0, false)))) ∧
       (∀ k, ts.length + 2 ≤ k →
         (readXRefTable (subsectionToks 1 (t0 :: ts)) emptyEntries).2 k =
           none))) := by
  refine ⟨?_, ?_, ?_⟩
  · -- renumbering fires on a fresh table
    intro ts hwf hsize
    have hrun : readXRefTable (subsectionToks 1 ((0, 65535, true) :: ts))
        emptyEntries =
        (true, storeRange (updE emptyEntries 0 ⟨0, 65535, .free⟩) 1 ts) := by
      unfold readXRefTable subsectionToks
      rw [xrefRun_header ((1 : Nat) : Int) (((0, 65535, true) :: ts).length : Int)
        _ _ (by omega) (by omega) (by simp; omega)]
      rw [show (((1 : Nat) : Int)).toNat = 1 by simp]
      rw [show (((1 : Nat) : Int) + (((0, 65535, true) :: ts).length : Int)).toNat =
        ts.length + 2 by simp; omega]
      rw [show encodeEntryToks ((0, 65535, true) :: ts) ++ [Obj.cmd 1 "trailer"]
          = Obj.num 0 :: Obj.num 65535 :: Obj.cmd 0 "f" ::
            (encodeEntryToks ts ++ [Obj.cmd 1 "trailer"]) by
        simp [encodeEntryToks]]
      rw [xrefRun_renumber_step 0 _ emptyEntries (ts.length + 2) (by omega) rfl]
      rw [show ts.length + 2 - 1 = 1 + ts.length by omega]
      rw [xref_encode_run ts [Obj.cmd 1 "trailer"]
        (updE emptyEntries 0 ⟨0, 65535, .free⟩) 1 0 hwf
        (by
          intro k hk
          simp only [updE]
          rw [if_neg (by omega)]
          rfl)
        (.inl (by decide))]
      rw [xrefRun_trailer]
    refine ⟨by rw [hrun], ?_, ?_, ?_⟩
    · rw [hrun]
      show storeRange _ 1 ts 0 = _
      rw [storeRange_get]
      rw [if_neg (by omega)]
      simp [updE]
    · intro j hj
      rw [hrun]
      show storeRange _ 1 ts (j + 1) = _
      rw [storeRange_get]
      rw [if_pos ⟨by omega, by omega⟩]
      simp
    · intro k hk
      rw [hrun]
      show storeRange _ 1 ts k = _
      rw [storeRange_get]
      rw [if_neg (by omega)]
      simp only [updE]
      rw [if_neg (by omega)]
      rfl
  · -- no renumbering when the declared first index is not 1
    intro first ts hf hwf hsize
    have hrun : readXRefTable (subsectionToks first ts) emptyEntries =
        (true, storeRange emptyEntries first ts) := by
      unfold readXRefTable subsectionToks
      rw [xrefRun_header (first : Int) (ts.length : Int) _ _
        (by omega) (by omega) (by omega)]
      rw [show ((first : Int)).toNat = first by omega]
      rw [show ((first : Int) + (ts.length : Int)).toNat = first + ts.length
        by omega]
      rw [xref_encode_run ts [Obj.cmd 1 "trailer"] emptyEntries first first hwf
        (fun _ _ => rfl) (.inl hf)]
      rw [xrefRun_trailer]
    refine ⟨by rw [hrun], ?_, ?_⟩
    · intro j hj
      rw [hrun]
      show storeRange _ first ts (first + j) = _
      rw [storeRange_get]
      rw [if_pos ⟨by omega, by omega⟩]
      simp
    · intro k hk
      rw [hrun]
      show storeRange _ first ts k = _
      rw [storeRange_get]
      rw [if_neg (by omega)]
      rfl
  · -- no renumbering when the first entry is not the synthetic free one
    intro t0 ts hns hwf hsize
    obtain ⟨o, g, f⟩ := t0
    have hw := hwf (o, g, f) (List.mem_cons_self _ _)
    simp only [tripleWf] at hw
    obtain ⟨hw1, hw2, hw3, hw4⟩ := hw
    have hrun : readXRefTable (subsectionToks 1 ((o, g, f) :: ts))
        emptyEntries =
        (true, storeRange (updE emptyEntries 1 (entryOf (o, g, f))) 2 ts) := by
      unfold readXRefTable subsectionToks
      rw [xrefRun_header ((1 : Nat) : Int) (((o, g, f) :: ts).length : Int)
        _ _ (by omega) (by omega) (by simp; omega)]
      rw [show (((1 : Nat) : Int)).toNat = 1 by simp]
      rw [show (((1 : Nat) : Int) + (((o, g, f) :: ts).length : Int)).toNat =
        ts.length + 2 by simp; omega]
      rw [show encodeEntryToks ((o, g, f) :: ts) ++ [Obj.cmd 1 "trailer"]
          = Obj.num o :: Obj.num g :: Obj.cmd 0 (if f then "f" else "n") ::
            (encodeEntryToks ts ++ [Obj.cmd 1 "trailer"]) by
        simp [encodeEntryToks]]
      rw [xrefRun_store_step o g f 0 _ emptyEntries 1 1 (ts.length + 2)
        (by omega) ⟨hw1, hw2⟩ ⟨hw3, hw4⟩ rfl
        (by
          rintro ⟨-, -, h1, h2, h3⟩
          exact hns ⟨h1, h2, h3⟩)]
      rw [show (updE emptyEntries 1
          ⟨o, g, if f then XKind.free else XKind.uncompressed⟩) =
        updE emptyEntries 1 (entryOf (o, g, f)) from rfl]
      rw [show (1 : Nat) + 1 = 2 from rfl]
      rw [show ts.length + 2 = 2 + ts.length by omega]
      rw [xref_encode_run ts [Obj.cmd 1 "trailer"]
        (updE emptyEntries 1 (entryOf (o, g, f))) 2 1
        (fun t' ht' => hwf t' (List.mem_cons_of_mem _ ht'))
        (by
          intro k hk
          simp only [updE]
          rw [if_neg (by omega)]
          rfl)
        (.inr (by omega))]
      rw [xrefRun_trailer]
    refine ⟨by rw [hrun], ?_, ?_, ?_⟩
    · rw [hrun]
      show storeRange _ 2 ts 0 = _
      rw [storeRange_get]
      rw [if_neg (by omega)]
      simp only [updE]
      rw [if_neg (by omega)]
      rfl
    · intro j hj
      rw [hrun]
      show storeRange _ 2 ts (1 + j) = _
      rcases j with _ | j'
      · rw [storeRange_get]
        rw [if_neg (by omega)]
        simp [updE, entryOf]
      · rw [storeRange_get]
        rw [if_pos ⟨by omega, by
          simp only [List.length_cons] at hj
          omega⟩]
        rw [show 1 + (j' + 1) - 2 = j' by omega]
        simp
    · intro k hk
      rw [hrun]
      show storeRange _ 2 ts k = _
      rw [storeRange_get]
      rw [if_neg (by omega)]
      simp only [updE]
      rw [if_neg (by omega)]
      rfl

/-- C5 counterexample: two Name tokens lexed from the identical content `A`
(the stream `/A /A`) are two distinct objects — `new Name` is executed per
token and no interning table exists — even though their `name` strings are
equal; likewise two Cmd tokens lexed from the identical content `BT` are
distinct objects.  Equality is therefore NOT identity comparison: the
objects differ while the contents agree. -/
theorem name_interning_cex :
    (lexGetName ⟨"A /A".toList, 0⟩ =
      .ok (.name 0 "A", [], ⟨[' ', '/', 'A'], 1⟩)) ∧
    (lexGetName ⟨['A'], 1⟩ = .ok (.name 1 "A", [], ⟨[], 2⟩)) ∧
    (Obj.name 0 "A" ≠ Obj.name 1 "A") ∧
    (objNameStr (.name 0 "A") = objNameStr (.name 1 "A")) ∧
    (lexGetCmdToken 'B' ⟨"T BT".toList, 10⟩ =
      (.cmd 10 "BT", [], ⟨[' ', 'B', 'T'], 11⟩)) ∧
    (lexGetCmdToken 'B' ⟨['T'], 11⟩ = (.cmd 11 "BT", [], ⟨[], 12⟩)) ∧
    (Obj.cmd 10 "BT" ≠ Obj.cmd 11 "BT") ∧
    (objCmdStr (.cmd 10 "BT") = objCmdStr (.cmd 11 "BT")) := by
  refine ⟨rfl, rfl, by simp, rfl, rfl, rfl, by simp, rfl⟩

/-- C5 (amended): every lexed Name carries the allocation stamp current at
its `new Name(...)` — the stamp increments with each allocation, so two
Name tokens lexed at different allocation states are never the same object —
while the `name` string is determined by the stream content alone, so two
Name tokens lexed from identical content have equal `name` strings.  The
same holds for Cmd tokens (`true`/`false`/`null` excepted, which allocate
nothing). -/
theorem name_fresh_alloc :
    (∀ (cs : List Char) (a : Nat) (o : Obj) (ws : List String)
        (st' : LexState),
      lexGetName ⟨cs, a⟩ = .ok (o, ws, st') →
      st'.alloc = a + 1 ∧
      ∃ s, o = .name a s ∧
        ∀ (a' : Nat) (o' : Obj) (ws' : List String) (st'' : LexState),
          lexGetName ⟨cs, a'⟩ = .ok (o', ws', st'') → o' = .name a' s) ∧
    (∀ (a a' : Nat) (s s' : String), a ≠ a' → Obj.name a s ≠ Obj.name a' s') ∧
    (∀ (c0 : Char) (cs : List Char) (a : Nat) (o : Obj) (ws : List String)
        (st' : LexState),
      lexGetCmdToken c0 ⟨cs, a⟩ = (o, ws, st') → isCmdObj o = true →
      st'.alloc = a + 1 ∧
      ∃ s, o = .cmd a s ∧
        ∀ (a' : Nat) (o' : Obj) (ws' : List String) (st'' : LexState),
          lexGetCmdToken c0 ⟨cs, a'⟩ = (o', ws', st'') → o' = .cmd a' s) ∧
    (∀ (a a' : Nat) (s s' : String), a ≠ a' → Obj.cmd a s ≠ Obj.cmd a' s') := by
  refine ⟨?_, ?_, ?_, ?_⟩
  · intro cs a o ws st' h
    cases hc : getNameCore cs with
    | error e =>
      rw [lexGetName] at h
      simp [hc] at h
    | ok r =>
      obtain ⟨cs', ws', rem⟩ := r
      rw [lexGetName] at h
      simp only [hc, Except.ok.injEq, Prod.mk.injEq] at h
      obtain ⟨ho, -, hst⟩ := h
      refine ⟨by rw [← hst], String.mk cs', ho.symm, ?_⟩
      intro a' o' ws'' st'' h'
      rw [lexGetName] at h'
      simp only [hc, Except.ok.injEq, Prod.mk.injEq] at h'
      exact h'.1.symm
  · intro a a' s s' hne
    simp [hne]
  · intro c0 cs a o ws st' h hcmd
    rw [lexGetCmdToken] at h
    by_cases h1 : String.mk (c0 :: (getCmdCore cs 1).1) = "true"
    · rw [if_pos h1] at h
      simp only [Prod.mk.injEq] at h
      rw [← h.1] at hcmd
      simp [isCmdObj] at hcmd
    · rw [if_neg h1] at h
      by_cases h2 : String.mk (c0 :: (getCmdCore cs 1).1) = "false"
      · rw [if_pos h2] at h
        simp only [Prod.mk.injEq] at h
        rw [← h.1] at hcmd
        simp [isCmdObj] at hcmd
      · rw [if_neg h2] at h
        by_cases h3 : String.mk (c0 :: (getCmdCore cs 1).1) = "null"
        · rw [if_pos h3] at h
          simp only [Prod.mk.injEq] at h
          rw [← h.1] at hcmd
          simp [isCmdObj] at hcmd
        · rw [if_neg h3] at h
          simp only [Prod.mk.injEq] at h
          obtain ⟨ho, -, hst⟩ := h
          refine ⟨by rw [← hst], String.mk (c0 :: (getCmdCore cs 1).1),
            ho.symm, ?_⟩
          intro a' o' ws'' st'' h'
          rw [lexGetCmdToken] at h'
          rw [if_neg h1, if_neg h2, if_neg h3] at h'
          simp only [Prod.mk.injEq] at h'
          exact h'.1.symm
  · intro a a' s s' hne
    simp [hne]

/-- A `linBufOk` buffer is not the `[` command, not the `<<` command, and
not a `Dict`. -/
theorem linBufOk_bools {o : Option Obj} (h : linBufOk o = true) :
    isCmdOpt o "[" = false ∧ isCmdOpt o "<<" = false ∧ isDictOpt o = false := by
  cases o with
  | none => exact ⟨rfl, rfl, rfl⟩
  | some t =>
    simp only [linBufOk, linTokOk, Bool.and_eq_true, Bool.not_eq_true'] at h
    exact ⟨h.2, h.1.2, h.1.1⟩

/-- `linBufOk` on a present buffer value is `linTokOk`. -/
theorem linBufOk_some (t : Obj) : linBufOk (some t) = linTokOk t := rfl

/-- The `EOF` buffer value is guarded. -/
theorem linBufOk_none : linBufOk none = true := rfl

/-- The `null` value inserted by `shift` during inline image data is
guarded. -/
theorem linTokOk_nullv : linTokOk .nullv = true := rfl

/-- `Parser.shift` preserves the linearization token guard (the inserted
`null` buffer is itself guarded). -/
theorem pShift_linStOk {st : PState} (h : linStOk st = true) :
    linStOk (pShift st) = true := by
  obtain ⟨toks, b1, b2, ii⟩ := st
  simp only [linStOk, Bool.and_eq_true] at h
  obtain ⟨⟨htoks, -⟩, hb2⟩ := h
  simp only [pShift]
  by_cases h1 : ii > 0
  · by_cases h2 : ii < 2
    · simp [h1, h2, linStOk, htoks, hb2, linBufOk_some, linTokOk_nullv]
    · cases toks with
      | nil =>
        simp [h1, h2, linStOk, linToksOk, hb2, linBufOk_none]
      | cons t r =>
        rw [linToksOk, List.all_cons, Bool.and_eq_true] at htoks
        simp [h1, h2, linStOk, linToksOk, htoks.1, htoks.2, hb2,
          linBufOk_some]
  · by_cases h3 : isCmdOpt b2 "ID" = true
    · simp [h1, h3, linStOk, htoks, hb2, linBufOk_some, linTokOk_nullv]
    · cases toks with
      | nil =>
        simp [h1, h3, linStOk, linToksOk, hb2, linBufOk_none]
      | cons t r =>
        rw [linToksOk, List.all_cons, Bool.and_eq_true] at htoks
        simp [h1, h3, linStOk, linToksOk, htoks.1, htoks.2, hb2,
          linBufOk_some]

/-- `Parser.refill` preserves the linearization token guard. -/
theorem pRefill_linStOk {st : PState} (h : linStOk st = true) :
    linStOk (pRefill st) = true := by
  obtain ⟨toks, b1, b2, ii⟩ := st
  simp only [linStOk, Bool.and_eq_true] at h
  obtain ⟨⟨htoks, -⟩, -⟩ := h
  match toks, htoks with
  | [], htoks => simp [pRefill, linStOk, linBufOk_none, htoks]
  | [t], htoks =>
    rw [linToksOk, List.all_cons, List.all_nil, Bool.and_eq_true] at htoks
    simp [pRefill, linStOk, linToksOk, htoks.1, linBufOk_some, linBufOk_none]
  | t1 :: t2 :: r, htoks =>
    rw [linToksOk, List.all_cons, List.all_cons, Bool.and_eq_true,
      Bool.and_eq_true] at htoks
    simp [pRefill, linStOk, linToksOk, htoks.1, htoks.2.1, htoks.2.2,
      linBufOk_some]

/-- The parser starts in a guarded state on a guarded token stream. -/
theorem pInit_linStOk {toks : List Obj} (h : linToksOk toks = true) :
    linStOk (pInit toks) = true :=
  pRefill_linStOk (by simp [linStOk, linBufOk, h])

/-- On a guarded state, `Parser.getObj` with any stack budget returns
without raising: the array and dictionary branches are not entered, so no
recursion happens, no undefined global is dereferenced, and the result —
a buffered token, an integer, or an indirect reference — is itself guarded
(in particular it is never a `Dict`), as is the final parser state. -/
theorem parserGetObj_clean (a : Bool) (fuel : Nat) {st : PState}
    (h : linStOk st = true) :
    ∃ o st', parserGetObj a (fuel + 1) st = .ok (o, st') ∧
      linBufOk o = true ∧ linStOk st' = true := by
  have h0 : linStOk (if st.inlineImg = 2 then pRefill st else st) = true := by
    by_cases h2 : st.inlineImg = 2
    · simpa [h2] using pRefill_linStOk h
    · simpa [h2] using h
  have hb1 : linBufOk (if st.inlineImg = 2 then pRefill st
      else st).buf1 = true := by
    have h4 := h0
    simp only [linStOk, Bool.and_eq_true] at h4
    exact h4.1.2
  obtain ⟨hA, hD, -⟩ := linBufOk_bools hb1
  simp only [parserGetObj, hA, hD, Bool.false_eq_true, if_false, ite_self]
  cases hn : optAsInt (if st.inlineImg = 2 then pRefill st else st).buf1 with
  | some n =>
    have hs1 : linStOk (pShift (if st.inlineImg = 2 then pRefill st
        else st)) = true := pShift_linStOk h0
    cases hg : optAsInt (pShift (if st.inlineImg = 2 then pRefill st
        else st)).buf1 with
    | some g =>
      cases hr : isCmdOpt (pShift (if st.inlineImg = 2 then pRefill st
          else st)).buf2 "R" with
      | true =>
        exact ⟨some (.ref n g), _, rfl, rfl,
          pShift_linStOk (pShift_linStOk hs1)⟩
      | false =>
        exact ⟨some (.num n), _, rfl, rfl, hs1⟩
    | none => exact ⟨some (.num n), _, rfl, rfl, hs1⟩
  | none => exact ⟨_, _, rfl, hb1, pShift_linStOk h0⟩

/-- On a guarded token stream the `Linearization` constructor never
raises: the fourth parsed object is never a `Dict`, so the condition
guarding the `lookup` call is false and `linDict` is simply that object. -/
theorem linearizationNew_ok {toks : List Obj} (fuel : Nat)
    (h : linToksOk toks = true) :
    ∃ ld, linearizationNew toks (fuel + 1) = .ok ld ∧
      isDictOpt ld = false := by
  obtain ⟨o1, st1, e1, hc1, hs1⟩ :=
    parserGetObj_clean false fuel (pInit_linStOk h)
  obtain ⟨o2, st2, e2, hc2, hs2⟩ := parserGetObj_clean false fuel hs1
  obtain ⟨o3, st3, e3, hc3, hs3⟩ := parserGetObj_clean false fuel hs2
  obtain ⟨o4, st4, e4, hc4, hs4⟩ := parserGetObj_clean false fuel hs3
  have hd4 : isDictOpt o4 = false := (linBufOk_bools hc4).2.2
  refine ⟨o4, ?_, hd4⟩
  simp [linearizationNew, e1, e2, e3, e4, hd4]

/-- C9 counterexample: the claim fails on its `/H` clause.  On the document
of length 100 whose first object reads `1 0 obj << /Linearized 1 /L 9999
>> endobj` — so with `/L` different from the stream length — the lexer
turns `<<` into the single-character command `Cmd("<")` (third conjunct:
the `<` dispatch case applied to the looked-ahead second `<`), the parser
therefore never builds a `Dict`, the constructor completes with `linDict =
Cmd("<")`, and the `linearization` getter discards the hint non-fatally
(`length` is 0, different from 100): that much matches the claim.  But the
`/H` hint accessors do not return a logged non-fatal 0: `getHint` reaches
`this.error(...)`, a method `Linearization` does not define, and raises a
TypeError. -/
theorem linearization_discard_cex :
    (linearizationNew linToksEx 8 = .ok (some (.cmd 3 "<"))) ∧
    (pdfDocLinearization 100 linToksEx 8 = .ok none) ∧
    (lexAngleOpen ⟨['<', ' '], 3⟩ = some (.cmd 3 "<", ⟨[' '], 4⟩)) ∧
    (linGetHint (some (.cmd 3 "<")) 0 = .error .typeErr) ∧
    (linGetHint (some (.cmd 3 "<")) 0 ≠ .ok 0) := by
  refine ⟨rfl, rfl, rfl, rfl, by simp [linGetHint, isDictOpt, isDict]⟩

/-- C9 (amended): (1) for every guarded token stream (no `Dict` values, no
`<<` commands — the lexer can produce neither — and no `[` commands, on
which this parser would recurse unboundedly) and every nonzero stream
length, the `PDFDoc.linearization` getter returns `false` without raising:
the hint is discarded non-fatally — in particular whenever the declared
`/L` differs from the stream length, since `linearization.length` is
always 0 here; (2) on every non-`Dict` `linDict` (hence on every parsed
one) `getInt` — behind `/O`, `/E`, `/N`, `/T`, `/P` and `/L` — yields the
logged non-fatal error and the result 0, exactly as the claim states; but
(3) the `/H` accessors throw: `getHint` raises a TypeError for every
`linDict` whatsoever.  Conjuncts (4)-(7) ground the guard in the lexer:
the `<<` source text yields the token `Cmd("<")` stamped fresh, the `>`
dispatch yields `Cmd(">")` or the `Error` sentinel, a bare command token
starting with a non-special character is never `<<` or `[`, and a name
token never is either. -/
theorem linearization_discard :
    (∀ (streamLength : Nat) (toks : List Obj) (fuel : Nat),
      linToksOk toks = true → streamLength ≠ 0 →
      pdfDocLinearization streamLength toks (fuel + 1) = .ok none) ∧
    (∀ (linDict : Option Obj) (nm : String), isDictOpt linDict = false →
      linGetInt linDict nm = .ok (0, [linFieldErrMsg nm])) ∧
    (∀ (linDict : Option Obj) (i : Nat),
      linGetHint linDict i = .error .typeErr) ∧
    (∀ (st : LexState) (o : Obj) (st' : LexState),
      lexAngleOpen st = some (o, st') → o = .cmd st.alloc "<") ∧
    (∀ (st : LexState), linTokOk (lexAngleClose st).1 = true) ∧
    (∀ (c0 : Char) (st : LexState), specialChar c0.toNat = 0 →
      linTokOk (lexGetCmdToken c0 st).1 = true) ∧
    (∀ (st : LexState) (o : Obj) (ws : List String) (st' : LexState),
      lexGetName st = .ok (o, ws, st') → linTokOk o = true) := by
  refine ⟨?_, ?_, ?_, ?_, ?_, ?_, ?_⟩
  · intro streamLength toks fuel htoks hlen
    obtain ⟨ld, he, hd⟩ := linearizationNew_ok fuel htoks
    simp only [pdfDocLinearization, if_neg hlen, he, linLength, hd,
      Bool.not_false, if_true]
    rw [if_pos]
    intro habs
    exact hlen (by exact_mod_cast habs.symm)
  · intro d nm h
    simp [linGetInt, h]
  · intro d i
    by_cases h : isDictOpt d = true <;> simp [linGetHint, h]
  · intro st o st' hyp
    rcases st with ⟨cs, al⟩
    cases cs with
    | nil => exact absurd hyp (by simp [lexAngleOpen])
    | cons c rest =>
      simp only [lexAngleOpen] at hyp
      by_cases hc : c = '<'
      · rw [if_pos hc] at hyp
        simp only [Option.some.injEq, Prod.mk.injEq] at hyp
        exact hyp.1.symm
      · rw [if_neg hc] at hyp
        exact absurd hyp (by simp)
  · intro st
    rcases st with ⟨cs, al⟩
    cases cs with
    | nil => rfl
    | cons c rest =>
      simp only [lexAngleClose]
      by_cases hc : c = '>' <;> simp [hc, linTokOk, isDict, isCmdNamed]
  · intro c0 st h
    simp only [lexGetCmdToken]
    by_cases h1 : String.mk (c0 :: (getCmdCore st.chars 1).1) = "true"
    · simp [h1, linTokOk, isDict, isCmdNamed]
    by_cases h2 : String.mk (c0 :: (getCmdCore st.chars 1).1) = "false"
    · simp [h1, h2, linTokOk, isDict, isCmdNamed]
    by_cases h3 : String.mk (c0 :: (getCmdCore st.chars 1).1) = "null"
    · simp [h1, h2, h3, linTokOk, isDict, isCmdNamed]
    simp only [h1, h2, h3, if_false]
    have hlt : String.mk (c0 :: (getCmdCore st.chars 1).1) ≠ "<<" := by
      intro habs
      have hdata : c0 :: (getCmdCore st.chars 1).1 = ['<', '<'] := by
        have h9 := congrArg String.data habs
        simpa using h9
      have hc0 : c0 = '<' := (List.cons.injEq _ _ _ _).mp hdata |>.1
      rw [hc0] at h
      exact absurd h (by decide)
    have hbr : String.mk (c0 :: (getCmdCore st.chars 1).1) ≠ "[" := by
      intro habs
      have hdata : c0 :: (getCmdCore st.chars 1).1 = ['['] := by
        have h9 := congrArg String.data habs
        simpa using h9
      have hc0 : c0 = '[' := (List.cons.injEq _ _ _ _).mp hdata |>.1
      rw [hc0] at h
      exact absurd h (by decide)
    simp [linTokOk, isDict, isCmdNamed, hlt, hbr]
  · intro st o ws st' hyp
    rw [lexGetName] at hyp
    cases hm : getNameCore st.chars with
    | error u => rw [hm] at hyp; cases u; exact absurd hyp (by simp)
    | ok v =>
      obtain ⟨cs, ws2, rem⟩ := v
      rw [hm] at hyp
      simp only [Except.ok.injEq, Prod.mk.injEq] at hyp
      rw [← hyp.1]
      rfl

/-- C9 witness: the universally quantified conjuncts of
`linearization_discard` applied at the counterexample document — its token
stream is guarded, so the hint 100-versus-0 length mismatch is discarded
non-fatally, `getInt("T")` on the reachable `linDict = Cmd("<")` logs and
returns 0, and the bare command token `endobj` (first character `e`,
non-special) is guarded. -/
theorem linearization_discard_witness :
    linToksOk linToksEx = true ∧
    pdfDocLinearization 100 linToksEx 8 = .ok none ∧
    linGetInt (some (.cmd 3 "<")) "T" = .ok (0, [linFieldErrMsg "T"]) ∧
    specialChar 'e'.toNat = 0 ∧
    linTokOk (lexGetCmdToken 'e' ⟨['n', 'd', 'o', 'b', 'j'], 5⟩).1 = true := by
  refine ⟨by decide, ?_, ?_, by decide, ?_⟩
  · exact linearization_discard.1 100 linToksEx 7 (by decide) (by decide)
  · exact linearization_discard.2.1 (some (.cmd 3 "<")) "T" (by decide)
  · exact linearization_discard.2.2.2.2.2.1 'e'
      ⟨['n', 'd', 'o', 'b', 'j'], 5⟩ (by decide)

/-- C7: the numeric operand encodings of `decodeCharString`.  A single byte
in `[32, 246]` decodes to `v - 139`; `[247, 250] w` to
`(v-247)*256 + w + 108`; `[251, 254] w` to `-(v-251)*256 - w - 108` — all
as the claim states.  But the 5-byte form is NOT the big-endian 32-bit
two's-complement value of the four following bytes: the source halves the
high byte (`(byte - (byte >> 1)) << 24`), so `255 02 00 00 00` decodes to
16777216 = 0x01000000 instead of 33554432 = 0x02000000, contradicting the
function's own documentation comment (fonts.js lines 1104-1107). -/
theorem decodeCharString_numeric :
    (∀ v : Nat, 32 ≤ v → v ≤ 246 →
      decodeCharString [v] = .ok [.num ((v : Int) - 139)]) ∧
    (∀ v w : Nat, 247 ≤ v → v ≤ 250 →
      decodeCharString [v, w] =
        .ok [.num (((v : Int) - 247) * 256 + (w : Int) + 108)]) ∧
    (∀ v w : Nat, 251 ≤ v → v ≤ 254 →
      decodeCharString [v, w] =
        .ok [.num (-(((v : Int) - 251) * 256) - (w : Int) - 108)]) ∧
    (decodeCharString [255, 2, 0, 0, 0] = .ok [.num 16777216]) ∧
    ((16777216 : Int) ≠ 33554432) := by
  refine ⟨?_, ?_, ?_, by simp [decodeCharString, cs255Val, toInt32, Except.map],
    by decide⟩
  · intro v h1 h2
    rw [decodeCharString.eq_def]
    dsimp only
    rw [if_neg (by omega), if_pos (by omega)]
    simp [decodeCharString, Except.map]
  · intro v w h1 h2
    rw [decodeCharString.eq_def]
    dsimp only
    rw [if_neg (by omega), if_neg (by omega), if_pos (by omega)]
    simp [decodeCharString, Except.map]
  · intro v w h1 h2
    rw [decodeCharString.eq_def]
    dsimp only
    rw [if_neg (by omega), if_neg (by omega), if_neg (by omega),
      if_pos (by omega)]
    simp [decodeCharString, Except.map]

/-- `find?` over an append when the left part finds a hit. -/
theorem find?_append_left {α : Type} {l1 l2 : List α} {p : α → Bool} {a : α}
    (h : l1.find? p = some a) : (l1 ++ l2).find? p = some a := by
  induction l1 with
  | nil => simp [List.find?] at h
  | cons x xs ih =>
    rw [List.cons_append]
    cases hp : p x with
    | true => rw [List.find?_cons_of_pos _ hp] at h ⊢; exact h
    | false =>
      rw [List.find?_cons_of_neg _ (by simp [hp])] at h ⊢
      exact ih h

/-- `find?` over an append when the left part finds nothing. -/
theorem find?_append_right {α : Type} {l1 l2 : List α} {p : α → Bool}
    (h : l1.find? p = none) : (l1 ++ l2).find? p = l2.find? p := by
  induction l1 with
  | nil => simp
  | cons x xs ih =>
    rw [List.cons_append]
    cases hp : p x with
    | true => rw [List.find?_cons_of_pos _ hp] at h; exact Option.noConfusion h
    | false =>
      rw [List.find?_cons_of_neg _ (by simp [hp])] at h ⊢
      exact ih h

/-- `find?` over `range m` finds the smallest index satisfying `p`. -/
theorem range_find?_spec {m : Nat} {p : Nat → Bool} {i : Nat}
    (h : (List.range m).find? p = some i) :
    p i = true ∧ i < m ∧ ∀ j, j < i → p j = false := by
  induction m with
  | zero => simp [List.range_zero] at h
  | succ m ih =>
    rw [List.range_succ] at h
    cases hf : (List.range m).find? p with
    | some i' =>
      rw [find?_append_left hf] at h
      obtain rfl : i' = i := Option.some.injEq _ _ ▸ h.symm ▸ rfl
      obtain ⟨h1, h2, h3⟩ := ih hf
      exact ⟨h1, by omega, h3⟩
    | none =>
      rw [find?_append_right hf] at h
      cases hp : p m with
      | true =>
        rw [List.find?_cons_of_pos _ hp] at h
        obtain rfl : m = i := by simpa using h
        refine ⟨hp, by omega, ?_⟩
        intro j hj
        have := List.find?_eq_none.mp hf j (by simpa using hj)
        simpa using this
      | false =>
        rw [List.find?_cons_of_neg _ (by simp [hp])] at h
        exact Option.noConfusion h

/-- `find?` over `(range m).reverse` finds the greatest index satisfying
`p`. -/
theorem revRange_find?_spec {m : Nat} {p : Nat → Bool} {i : Nat}
    (h : ((List.range m).reverse).find? p = some i) :
    p i = true ∧ i < m ∧ ∀ j, i < j → j < m → p j = false := by
  induction m with
  | zero => simp [List.range_zero] at h
  | succ m ih =>
    rw [List.range_succ, List.reverse_append] at h
    simp only [List.reverse_singleton, List.singleton_append] at h
    cases hp : p m with
    | true =>
      rw [List.find?_cons_of_pos _ hp] at h
      obtain rfl : m = i := by simpa using h
      exact ⟨hp, by omega, fun j h1 h2 => by omega⟩
    | false =>
      rw [List.find?_cons_of_neg _ (by simp [hp])] at h
      obtain ⟨h1, h2, h3⟩ := ih h
      refine ⟨h1, by omega, ?_⟩
      intro j hj1 hj2
      by_cases hjm : j = m
      · subst hjm; exact hp
      · exact h3 j hj1 (by omega)

/-- `strIndexOf` finds the first occurrence. -/
theorem strIndexOf_some {hay needle : List Nat} {i : Nat}
    (h : strIndexOf hay needle = some i) :
    needle <+: hay.drop i ∧ i ≤ hay.length ∧
      ∀ j, j < i → ¬ needle <+: hay.drop j := by
  obtain ⟨h1, h2, h3⟩ := range_find?_spec h
  refine ⟨by simpa using h1, by omega, ?_⟩
  intro j hj
  have := h3 j hj
  simpa using this

/-- `strLastIndexOf` finds the last occurrence. -/
theorem strLastIndexOf_some {hay needle : List Nat} {i : Nat}
    (h : strLastIndexOf hay needle = some i) :
    needle <+: hay.drop i ∧ i ≤ hay.length ∧
      ∀ j, i < j → j ≤ hay.length → ¬ needle <+: hay.drop j := by
  obtain ⟨h1, h2, h3⟩ := revRange_find?_spec h
  refine ⟨by simpa using h1, by omega, ?_⟩
  intro j hj1 hj2
  have := h3 j hj1 (by omega)
  simpa using this

/-- `Stream.find` in terms of the collected window (definitional). -/
theorem Stream.find_eq (s : Stream) (needle : List Nat) (limit : Nat)
    (backwards : Bool) :
    Stream.find s needle limit backwards =
      match (if backwards then strLastIndexOf (Stream.window s limit) needle
        else strIndexOf (Stream.window s limit) needle) with
      | none => (false, s)
      | some i => (true, ⟨s.bytes, s.pos + i⟩) := rfl

/-- The window never exceeds `limit` characters. -/
theorem Stream.window_length_le (s : Stream) (limit : Nat) :
    (Stream.window s limit).length ≤ limit := by
  unfold Stream.window
  by_cases hcl : s.pos + limit > s.bytes.length
  · simp only [hcl, if_true, List.length_take, List.length_drop]
    omega
  · simp only [hcl, if_false, List.length_take, List.length_drop]
    omega

/-- An occurrence inside the window is an occurrence in the underlying
bytes at the corresponding absolute position. -/
theorem Stream.window_occurrence (s : Stream) (limit i : Nat)
    (needle : List Nat) (h : needle <+: (Stream.window s limit).drop i) :
    needle <+: s.bytes.drop (s.pos + i) := by
  unfold Stream.window at h
  rw [List.drop_take] at h
  refine h.trans ?_
  rw [List.drop_drop]
  exact List.take_prefix _ _

/-- C10: `Stream.find` leaves the stream exactly unchanged when it returns
`false`; when it returns `true` it leaves the bytes unchanged and sets the
position to the start of the first (or, backwards, the last) occurrence of
the needle within the window of at most `limit` characters beginning at the
original position — the needle indeed occurs at the new position, which
never exceeds the original position by more than `limit` (even counting the
needle's length). -/
theorem stream_find_spec (s : Stream) (needle : List Nat) (limit : Nat)
    (backwards : Bool) :
    (∀ s', Stream.find s needle limit backwards = (false, s') → s' = s) ∧
    (∀ s', Stream.find s needle limit backwards = (true, s') →
      s'.bytes = s.bytes ∧
      s.pos ≤ s'.pos ∧
      s'.pos + needle.length ≤ s.pos + limit ∧
      needle <+: s.bytes.drop s'.pos ∧
      (∃ i, s'.pos = s.pos + i ∧
        needle <+: (Stream.window s limit).drop i ∧
        (backwards = false → ∀ j, j < i →
          ¬ needle <+: (Stream.window s limit).drop j) ∧
        (backwards = true → ∀ j, i < j →
          j ≤ (Stream.window s limit).length →
          ¬ needle <+: (Stream.window s limit).drop j))) := by
  constructor
  · intro s' h
    rw [Stream.find_eq] at h
    cases hidx : (if backwards then strLastIndexOf (Stream.window s limit) needle
      else strIndexOf (Stream.window s limit) needle) with
    | none =>
      rw [hidx] at h
      exact (Prod.mk.injEq _ _ _ _ ▸ h).2.symm
    | some i =>
      rw [hidx] at h
      exact absurd (Prod.mk.injEq _ _ _ _ ▸ h).1 (by simp)
  · intro s' h
    rw [Stream.find_eq] at h
    cases hidx : (if backwards then strLastIndexOf (Stream.window s limit) needle
      else strIndexOf (Stream.window s limit) needle) with
    | none =>
      rw [hidx] at h
      exact absurd (Prod.mk.injEq _ _ _ _ ▸ h).1 (by simp)
    | some i =>
      rw [hidx] at h
      obtain ⟨-, hs⟩ := Prod.mk.injEq _ _ _ _ ▸ h
      have hocc : needle <+: (Stream.window s limit).drop i ∧
          i ≤ (Stream.window s limit).length ∧
          ((backwards = false → ∀ j, j < i →
            ¬ needle <+: (Stream.window s limit).drop j) ∧
           (backwards = true → ∀ j, i < j →
            j ≤ (Stream.window s limit).length →
            ¬ needle <+: (Stream.window s limit).drop j)) := by
        cases backwards with
        | false =>
          rw [if_neg (by simp)] at hidx
          obtain ⟨h1, h2, h3⟩ := strIndexOf_some hidx
          exact ⟨h1, h2, fun _ => h3, fun hh => by simp at hh⟩
        | true =>
          rw [if_pos rfl] at hidx
          obtain ⟨h1, h2, h3⟩ := strLastIndexOf_some hidx
          exact ⟨h1, h2, fun hh => by simp at hh, fun _ => h3⟩
      obtain ⟨h1, h2, h3⟩ := hocc
      have hlen : needle.length ≤ (Stream.window s limit).length - i := by
        have := h1.length_le
        simpa [List.length_drop] using this
      have hwl := Stream.window_length_le s limit
      refine ⟨by rw [← hs], ?_, ?_, ?_, ?_⟩
      · rw [← hs]
        show s.pos ≤ s.pos + i
        omega
      · rw [← hs]
        show s.pos + i + needle.length ≤ s.pos + limit
        omega
      · rw [← hs]
        exact Stream.window_occurrence s limit i needle h1
      · exact ⟨i, by rw [← hs], h1, h3.1, h3.2⟩

/-- Witness for C10 at a concrete stream: searching `[2, 3]` in bytes
`[9, 2, 3, 4]` from position 1 with limit 3 succeeds and moves the position
to 1 (the start of the occurrence). -/
theorem stream_find_spec_witness :
    (⟨[9, 2, 3, 4], 1⟩ : Stream).bytes = (⟨[9, 2, 3, 4], 1⟩ : Stream).bytes ∧
    (⟨[9, 2, 3, 4], 1⟩ : Stream).pos ≤ 1 ∧
    1 + ([2, 3] : List Nat).length ≤ (⟨[9, 2, 3, 4], 1⟩ : Stream).pos + 3 ∧
    ([2, 3] : List Nat) <+: ([9, 2, 3, 4] : List Nat).drop 1 ∧
    (∃ i, 1 = (⟨[9, 2, 3, 4], 1⟩ : Stream).pos + i ∧
      ([2, 3] : List Nat) <+:
        (Stream.window (⟨[9, 2, 3, 4], 1⟩ : Stream) 3).drop i ∧
      (false = false → ∀ j, j < i →
        ¬ ([2, 3] : List Nat) <+:
          (Stream.window (⟨[9, 2, 3, 4], 1⟩ : Stream) 3).drop j) ∧
      (false = true → ∀ j, i < j →
        j ≤ (Stream.window (⟨[9, 2, 3, 4], 1⟩ : Stream) 3).length →
        ¬ ([2, 3] : List Nat) <+:
          (Stream.window (⟨[9, 2, 3, 4], 1⟩ : Stream) 3).drop j)) := by
  have h := (stream_find_spec ⟨[9, 2, 3, 4], 1⟩ [2, 3] 3 false).2
    ⟨[9, 2, 3, 4], 1⟩ (by rfl)
  simpa using h

/-- The kept records of the `getOrderedCharStrings` loop are exactly the
glyphs whose table lookup is truthy, in input order. -/
theorem gocsLoop_fst {α : Type} (tbl : String → Option Nat)
    (glyphs : List (String × α)) :
    (gocsLoop tbl glyphs).1 =
      glyphs.filterMap (fun g =>
        match tbl g.1 with
        | some u => if u ≠ 0 then some ⟨g.1, u, g.2⟩ else none
        | none => none) := by
  induction glyphs with
  | nil => rfl
  | cons g rest ih =>
    rcases h : tbl g.1 with _ | u
    · by_cases hn : g.1 ≠ ".notdef" <;>
        simp [gocsLoop, h, hn, ih, List.filterMap_cons]
    · by_cases hu : u = 0
      · subst hu
        by_cases hn : g.1 ≠ ".notdef" <;>
          simp [gocsLoop, h, hn, ih, List.filterMap_cons]
      · simp [gocsLoop, h, hu, ih, List.filterMap_cons]

/-- The warnings of the `getOrderedCharStrings` loop are exactly the names
with a falsy table lookup other than `.notdef`, in input order. -/
theorem gocsLoop_snd {α : Type} (tbl : String → Option Nat)
    (glyphs : List (String × α)) :
    (gocsLoop tbl glyphs).2 =
      (glyphs.filter (fun g => jsFalsyNat (tbl g.1) && g.1 ≠ ".notdef")).map
        (fun g => g.1 ++ glyphWarnSuffix) := by
  induction glyphs with
  | nil => rfl
  | cons g rest ih =>
    rcases h : tbl g.1 with _ | u
    · by_cases hn : g.1 ≠ ".notdef" <;>
        simp [gocsLoop, h, hn, ih, jsFalsyNat, List.filter_cons]
    · by_cases hu : u = 0
      · subst hu
        by_cases hn : g.1 ≠ ".notdef" <;>
          simp [gocsLoop, h, hn, ih, jsFalsyNat, List.filter_cons]
      · simp [gocsLoop, h, hu, ih, jsFalsyNat, List.filter_cons]

/-- C8: `getOrderedCharStrings` returns, in ascending order of unicode as
given by the glyph table, exactly the glyphs whose names have a (truthy)
table entry; glyphs with no entry are dropped, and each of them except
`.notdef` produces the warning message (the `unless .notdef` exception
applies to the warning: a `.notdef` glyph without an entry is dropped
silently, not kept). -/
theorem getOrderedCharStrings_spec {α : Type} (tbl : String → Option Nat)
    (glyphs : List (String × α)) :
    List.Pairwise (fun a b => a.unicode ≤ b.unicode)
        (getOrderedCharStrings tbl glyphs).1 ∧
    (getOrderedCharStrings tbl glyphs).1.Perm
      (glyphs.filterMap (fun g =>
        match tbl g.1 with
        | some u => if u ≠ 0 then some ⟨g.1, u, g.2⟩ else none
        | none => none)) ∧
    (getOrderedCharStrings tbl glyphs).2 =
      (glyphs.filter (fun g => jsFalsyNat (tbl g.1) && g.1 ≠ ".notdef")).map
        (fun g => g.1 ++ glyphWarnSuffix) := by
  refine ⟨?_, ?_, ?_⟩
  · have hs := @List.sorted_mergeSort (CharstringRec α)
      (fun a b => decide (a.unicode ≤ b.unicode))
      (fun a b c hab hbc => by
        simp only [decide_eq_true_eq] at hab hbc ⊢
        omega)
      (fun a b => by
        simp only [Bool.or_eq_true, decide_eq_true_eq]
        omega)
      (gocsLoop tbl glyphs).1
    exact hs.imp (fun h => by simpa using h)
  · have hp := List.mergeSort_perm (gocsLoop tbl glyphs).1
      (fun a b => decide (a.unicode ≤ b.unicode))
    rw [← gocsLoop_fst tbl glyphs]
    exact hp
  · exact gocsLoop_snd tbl glyphs

/-- Witness for C7 at concrete bytes: `100` decodes to `-39`, `247 10` to
118, and `251 10` to -118. -/
theorem decodeCharString_numeric_witness :
    (decodeCharString [100] = .ok [.num ((100 : Nat) - 139 : Int)]) ∧
    (decodeCharString [247, 10] =
      .ok [.num ((((247 : Nat) : Int) - 247) * 256 + ((10 : Nat) : Int) + 108)]) ∧
    (decodeCharString [251, 10] =
      .ok [.num (-((((251 : Nat) : Int) - 251) * 256) - ((10 : Nat) : Int) - 108)]) :=
  ⟨decodeCharString_numeric.1 100 (by decide) (by decide),
   decodeCharString_numeric.2.1 247 10 (by decide) (by decide),
   decodeCharString_numeric.2.2.1 251 10 (by decide) (by decide)⟩

/-- Witness for C5 (amended), at the concrete name content `A` and the
concrete command content `BT`. -/
theorem name_fresh_alloc_witness :
    ((⟨[], 6⟩ : LexState).alloc = 5 + 1 ∧
      ∃ s, (Obj.name 5 "A") = .name 5 s ∧
        ∀ (a' : Nat) (o' : Obj) (ws' : List String) (st'' : LexState),
          lexGetName ⟨['A'], a'⟩ = .ok (o', ws', st'') → o' = .name a' s) ∧
    (Obj.name 5 "A" ≠ Obj.name 6 "A") :=
  ⟨name_fresh_alloc.1 ['A'] 5 (.name 5 "A") [] ⟨[], 6⟩ rfl,
   name_fresh_alloc.2.1 5 6 "A" "A" (by decide)⟩

/-- C6: the hex-escape decoder of `Lexer.getName`.  `#20` (two decimal hex
digits) decodes to the byte 0x20, a literal space, and a name longer than
128 characters lexes successfully with only the non-fatal length warning.
But an escape whose hex digit is a letter is decoded WRONG: `ToHexDigit`
computes letter values with the JS string subtraction `ch - "a"`, which is
`NaN`, so `#4a` decodes to `@` (0x40 — the `a` contributes 0 bits) instead
of `J` (0x4A), and `#ff` decodes to the NUL character instead of 0xFF. -/
theorem getName_hex_escape :
    (lexGetName ⟨"#20A".toList, 0⟩ = .ok (.name 0 " A", [], ⟨[], 1⟩)) ∧
    (lexGetName ⟨"#4a".toList, 0⟩ = .ok (.name 0 "@", [], ⟨[], 1⟩)) ∧
    ("@" ≠ "J") ∧
    (lexGetName ⟨"#ff".toList, 0⟩ = .ok (.name 0 "\x00", [], ⟨[], 1⟩)) ∧
    ("\x00" ≠ "\xff") ∧
    (lexGetName ⟨List.replicate 129 'A', 0⟩ =
      .ok (.name 0 (String.mk (List.replicate 129 'A')), [nameLengthWarnMsg],
        ⟨[], 1⟩)) := by
  refine ⟨rfl, rfl, by decide, rfl, by decide, ?_⟩
  set_option maxRecDepth 4000 in rfl

/-- Witness for C4 (amended): the renumbering part at the one-entry
subsection `1 1` holding just the synthetic entry, and the
declared-position part at a subsection `3 1`. -/
theorem xref_renumber_witness :
    ((readXRefTable (subsectionToks 1 [(0, 65535, true)]) emptyEntries).2 0 =
      some ⟨0, 65535, .free⟩) ∧
    ((readXRefTable (subsectionToks 3 [(9, 0, false)]) emptyEntries).2 3 =
      some (entryOf (9, 0, false))) :=
  ⟨((xref_renumber.1 [] (by simp) (by decide)).2.1),
   (by
     have h := (xref_renumber.2.1 3 [(9, 0, false)] (by decide)
       (by
         intro t ht
         simp at ht
         subst ht
         exact ⟨by decide, by decide, by decide, by decide⟩)
       (by decide)).2.1 0 (by decide)
     simpa using h)⟩

end PdfJs
